import Mathlib

/-!
# Verification of the mind-map graph editing and interaction engine

Shallow embedding of the core engine of the mind-map editor
(`src/App.tsx` together with the complete implementation kept in
`src/types/index.ts`, and the modular `src/utils/layout.ts`).

Conventions of the embedding:

* JavaScript numbers are modelled as real numbers (`ℝ`) for world
  coordinates, pan and scale (they flow through `cos`/`sin`/`sqrt`),
  and as rationals (`ℚ`) for box sizes and font sizes (they only ever
  result from rational arithmetic: constants, `*0.6`, `*1.15`,
  `round`, `ceil`).  JavaScript `Math.round` is `⌊x + 1/2⌋`, exactly
  Mathlib's `round`; `Math.ceil` is `Int.ceil`.
* ids are integers (`ℤ`).  Fresh ids produced from `Date.now()` and
  friends are passed as explicit parameters to the operations that
  create them.
* JavaScript `Set<number>` is modelled as `Finset ℤ`; `Array.from`
  is `Finset.toList`, `new Set(array)` is `List.toFinset`.
* `cloneSnapshot` (a JSON deep copy) is the identity on values.
* The view layer (SVG element, `getBoundingClientRect`,
  `bringBoxIntoView`, the deferred zero-delay camera nudge) is outside
  the core per the specification; where an operation needs the
  viewport centre it is passed as an argument.
-/

namespace Mindmap

/-- A 2-D point (world or screen coordinates). -/
structure Pt where
  x : ℝ
  y : ℝ

/-- `MindNode` from the source: box centre `(x, y)`, box size `(w, h)`,
label and style. -/
structure MindNode where
  id : ℤ
  label : String
  x : ℝ
  y : ℝ
  w : ℚ
  h : ℚ
  strokeColor : String
  fillColor : Option String
  bold : Bool

/-- `Link` (edge) from the source. -/
structure Link where
  id : ℤ
  source : ℤ
  target : ℤ
  label : Option String
  dashed : Bool
  arrow : Bool

/-- `Snapshot` from the source: the unit of undo/redo and export.
`selectedIds` / `selectedEdgeIds` are stored as arrays
(`Array.from(set)`). -/
structure Snapshot where
  nodes : List MindNode
  edges : List Link
  pan : Pt
  scale : ℝ
  selectedId : Option ℤ
  selectedIds : List ℤ
  selectedEdgeIds : List ℤ

/-- The live (current) state: node/edge collections, camera, and the
selection model, with the two selection domains kept as sets as in the
source (`useState<Set<number>>`). -/
structure Cur where
  nodes : List MindNode
  edges : List Link
  pan : Pt
  scale : ℝ
  selectedId : Option ℤ
  selectedIds : Finset ℤ
  selectedEdgeIds : Finset ℤ

/-- Clipboard payload (`{ nodes, edges }`). -/
structure Clip where
  nodes : List MindNode
  edges : List Link

/-- Whole engine state: current state plus the two history stacks
(`undoStack`, `redoStack`, head = top) and the clipboard ref. -/
structure AppState where
  cur : Cur
  undos : List Snapshot
  redos : List Snapshot
  clipboard : Option Clip

/-- `Array.from(set)`: enumerate a `Set<number>` as an array.  The
JavaScript enumeration is in insertion order; the embedding uses the
ascending enumeration, which is deterministic and enumerates the same
elements. -/
def setToArray (s : Finset ℤ) : List ℤ :=
  s.sort (· ≤ ·)

/-- `snapshot()` from the source: captures the current state, turning
the selection sets into arrays via `Array.from`. -/
def snapshotOf (c : Cur) : Snapshot :=
  { nodes := c.nodes
    edges := c.edges
    pan := c.pan
    scale := c.scale
    selectedId := c.selectedId
    selectedIds := setToArray c.selectedIds
    selectedEdgeIds := setToArray c.selectedEdgeIds }

/-- `restore(s)` from the source: installs a snapshot as the current
state (`new Set(s.selectedIds)` etc.). -/
def restoreCur (s : Snapshot) : Cur :=
  { nodes := s.nodes
    edges := s.edges
    pan := s.pan
    scale := s.scale
    selectedId := s.selectedId
    selectedIds := s.selectedIds.toFinset
    selectedEdgeIds := s.selectedEdgeIds.toFinset }

/-- `pushHistory()` from the source: clone the current state onto the
undo stack and clear the redo stack. -/
def pushHistory (st : AppState) : AppState :=
  { st with undos := snapshotOf st.cur :: st.undos, redos := [] }

/-- A mutation wrapped in the push-before-change discipline:
`pushHistory()` first, then the change `f` applied to the current
state.  The discrete operations (`removeNodes`, `removeEdges`,
`addChild`, paste, the typing edits) have this shape; the continuous
node-drag gesture does **not** — it mutates positions on every
pointer move and pushes its single snapshot only at pointer-up, from
the already-moved state (see `dragGesture`). -/
def applyMut (f : Cur → Cur) (st : AppState) : AppState :=
  { pushHistory st with cur := f st.cur }

/-- `undo()` from the source: no-op on an empty stack, else push the
current state onto `redo` and restore the popped snapshot. -/
def undo (st : AppState) : AppState :=
  match st.undos with
  | [] => st
  | s :: rest =>
      { cur := restoreCur s
        undos := rest
        redos := snapshotOf st.cur :: st.redos
        clipboard := st.clipboard }

/-- `redo()` from the source, the mirror of `undo()`. -/
def redo (st : AppState) : AppState :=
  match st.redos with
  | [] => st
  | s :: rest =>
      { cur := restoreCur s
        undos := snapshotOf st.cur :: st.undos
        redos := rest
        clipboard := st.clipboard }

/-- Applying a sequence of mutating gestures in order. -/
def applyMuts (fs : List (Cur → Cur)) (st : AppState) : AppState :=
  fs.foldl (fun s f => applyMut f s) st

theorem restoreCur_snapshotOf (c : Cur) : restoreCur (snapshotOf c) = c := by
  simp [restoreCur, snapshotOf, setToArray, Finset.sort_toFinset]

theorem applyMut_cur (f : Cur → Cur) (st : AppState) :
    (applyMut f st).cur = f st.cur := rfl

theorem applyMut_undos (f : Cur → Cur) (st : AppState) :
    (applyMut f st).undos = snapshotOf st.cur :: st.undos := rfl

theorem applyMut_clipboard (f : Cur → Cur) (st : AppState) :
    (applyMut f st).clipboard = st.clipboard := rfl

/-- Core of the undo/redo round trip, proved by induction over the
sequence of gestures: `N` undos recover the pre-sequence current
state and original undo stack, and `N` redos from there rebuild the
final state exactly. -/
theorem roundTrip_aux (fs : List (Cur → Cur)) (st : AppState) :
    (undo^[fs.length] (applyMuts fs st)).cur = st.cur
    ∧ (undo^[fs.length] (applyMuts fs st)).undos = st.undos
    ∧ (undo^[fs.length] (applyMuts fs st)).clipboard = st.clipboard
    ∧ redo^[fs.length] (undo^[fs.length] (applyMuts fs st)) = applyMuts fs st := by
  induction fs generalizing st with
  | nil => simp [applyMuts]
  | cons f t ih =>
      have hA : applyMuts (f :: t) st = applyMuts t (applyMut f st) := rfl
      obtain ⟨hcur, hundos, hclip, hredo⟩ := ih (applyMut f st)
      rw [applyMut_cur] at hcur
      rw [applyMut_undos] at hundos
      rw [applyMut_clipboard] at hclip
      rcases hUeq : undo^[t.length] (applyMuts t (applyMut f st)) with ⟨c, u, r, cl⟩
      rw [hUeq] at hcur hundos hclip hredo
      simp only at hcur hundos hclip
      subst hcur hundos hclip
      have hstep : undo^[(f :: t).length] (applyMuts (f :: t) st) =
          undo ⟨f st.cur, snapshotOf st.cur :: st.undos, r, st.clipboard⟩ := by
        rw [hA]
        show undo^[t.length + 1] (applyMuts t (applyMut f st)) = _
        rw [Function.iterate_succ_apply', hUeq]
      have hundoU : undo (⟨f st.cur, snapshotOf st.cur :: st.undos, r,
          st.clipboard⟩ : AppState) =
          ⟨st.cur, st.undos, snapshotOf (f st.cur) :: r, st.clipboard⟩ := by
        simp [undo, restoreCur_snapshotOf]
      refine ⟨?_, ?_, ?_, ?_⟩
      · rw [hstep, hundoU]
      · rw [hstep, hundoU]
      · rw [hstep, hundoU]
      · rw [hstep, hundoU]
        have hredoStep : redo (⟨st.cur, st.undos, snapshotOf (f st.cur) :: r,
            st.clipboard⟩ : AppState) =
            ⟨f st.cur, snapshotOf st.cur :: st.undos, r, st.clipboard⟩ := by
          simp [redo, restoreCur_snapshotOf]
        show redo^[t.length + 1] _ = _
        rw [Function.iterate_succ_apply, hredoStep, hA]
        exact hredo

/-! ## GraphStore queries and the selection model -/

/-- `getParentId(childId)` from the source: the `source` of the first
edge whose `target` is `childId`, else `null`. -/
def getParentId (edges : List Link) (childId : ℤ) : Option ℤ :=
  (edges.find? (fun e => e.target == childId)).map (·.source)

/-- `getChildrenOf(parentId)` from the source: targets of all edges
with the given source, sorted ascending (`(a, b) => a - b`). -/
def getChildrenOf (edges : List Link) (parentId : ℤ) : List ℤ :=
  (((edges.filter (fun e => e.source == parentId)).map (·.target)).insertionSort (· ≤ ·))

/-- `selectOnly(id)` from the source (the transient shift-tab /
previous-selection refs are navigation scratch state outside the
engine state). -/
def selectOnlyC (id : ℤ) (c : Cur) : Cur :=
  { c with selectedId := some id, selectedIds := {id}, selectedEdgeIds := ∅ }

/-- `clearSelection()` from the source. -/
def clearSelectionC (c : Cur) : Cur :=
  { c with selectedId := none, selectedIds := ∅, selectedEdgeIds := ∅ }

/-- `selectFromArray(ids)` from the source (marquee result):
primary is `ids[0] ?? null`. -/
def selectFromArrayC (ids : List ℤ) (c : Cur) : Cur :=
  { c with selectedId := ids.head?, selectedIds := ids.toFinset,
           selectedEdgeIds := ∅ }

/-- Ctrl/Cmd-click multi-select toggle from `onPointerDownNode`:
add/remove `id` from the set; primary becomes the first remaining
member or null; edge selection is cleared. -/
def toggleSelectC (id : ℤ) (c : Cur) : Cur :=
  let next := if id ∈ c.selectedIds then c.selectedIds.erase id
              else insert id c.selectedIds
  { c with selectedIds := next, selectedId := (setToArray next).head?,
           selectedEdgeIds := ∅ }

/-- `onEdgePointerDown` from the source: node selection is emptied;
with shift the edge id is toggled in the edge selection, otherwise the
edge selection is replaced by that edge alone. -/
def edgeSelectC (eid : ℤ) (shift : Bool) (c : Cur) : Cur :=
  { c with selectedIds := ∅, selectedId := none,
           selectedEdgeIds :=
             if shift then
               (if eid ∈ c.selectedEdgeIds then c.selectedEdgeIds.erase eid
                else insert eid c.selectedEdgeIds)
             else {eid} }

/-! ## Removal operations (`src/types/index.ts` lines 728-763; the
abridged copy of `removeNodes` in `App.tsx` omits the
parent-selection branch) -/

/-- The `nextSelection` computation inside `removeNodes(ids)`: when
`ids` is a one-element array (`ids.length === 1`) whose resolved
parent is not itself listed, that parent, else none.  Resolution uses
the pre-removal edge list. -/
def nextSelectionFor (ids : List ℤ) (edges : List Link) : Option ℤ :=
  match ids with
  | [v] =>
      match getParentId edges v with
      | some p => if p ∈ ids then none else some p
      | none => none
  | _ => none

/-- The pure state change of `removeNodes(ids)`: drop listed nodes and
every incident edge; select the resolved parent when `nextSelection`
produced one, else clear the selection. -/
def removeNodesCore (ids : List ℤ) (c : Cur) : Cur :=
  let c' := { c with
    nodes := c.nodes.filter (fun n => n.id ∉ ids)
    edges := c.edges.filter (fun e => e.source ∉ ids ∧ e.target ∉ ids) }
  match nextSelectionFor ids c.edges with
  | some p =>
      { c' with selectedId := some p, selectedIds := {p},
                selectedEdgeIds := ∅ }
  | none => clearSelectionC c'

/-- `removeNodes(ids)` from the source: no-op on an empty list, else
`pushHistory()` followed by the state change. -/
def removeNodes (ids : List ℤ) (st : AppState) : AppState :=
  if ids.isEmpty then st
  else { pushHistory st with cur := removeNodesCore ids (pushHistory st).cur }

/-- The pure state change of `removeEdges(ids)`: drop the listed
edges and clear the edge selection (node selection untouched). -/
def removeEdgesCore (ids : List ℤ) (c : Cur) : Cur :=
  { c with edges := c.edges.filter (fun e => e.id ∉ ids),
           selectedEdgeIds := ∅ }

/-- `removeEdges(ids)` from the source. -/
def removeEdges (ids : List ℤ) (st : AppState) : AppState :=
  if ids.isEmpty then st
  else { pushHistory st with cur := removeEdgesCore ids (pushHistory st).cur }

/-! ## Claim C1: undo/redo round trip

The node-drag gesture (`onPointerDownNode` without modifiers on an
already-selected single node, `onPointerMoveSvg` while dragging,
`onPointerUpSvg`): each pointer move sets the dragged node's centre to
`pointer + dragOffset` and marks `somethingMoved`; pointer-up then
calls `pushHistory()` once if anything moved — cloning the state
*after* the moves, not before. -/

/-- One `onPointerMoveSvg` step of an active single-node drag: the
dragged node's centre becomes `(px + dx, py + dy)` where `(dx, dy)`
is the constant `dragOffset` captured at pointer-down. -/
def dragMove (id : ℤ) (dx dy px py : ℝ) (st : AppState) : AppState :=
  { st with cur := { st.cur with nodes := st.cur.nodes.map (fun n =>
      if n.id = id then { n with x := px + dx, y := py + dy } else n) } }

/-- The move phase of a drag over a list of pointer positions. -/
def dragMoves (id : ℤ) (dx dy : ℝ) (moves : List (ℝ × ℝ))
    (st : AppState) : AppState :=
  moves.foldl (fun s p => dragMove id dx dy p.1 p.2 s) st

/-- `onPointerUpSvg` ending a drag:
`if (somethingMoved.current) pushHistory()`. -/
def dragEnd (moved : Bool) (st : AppState) : AppState :=
  if moved then pushHistory st else st

/-- A whole drag gesture: the moves, then the pointer-up with
`somethingMoved` true iff at least one move happened.  The single
history push happens at the end, from the post-move state. -/
def dragGesture (id : ℤ) (dx dy : ℝ) (moves : List (ℝ × ℝ))
    (st : AppState) : AppState :=
  dragEnd (!moves.isEmpty) (dragMoves id dx dy moves st)

/-- A one-node state (node 1 at the origin, selected) for the drag
scenario. -/
def dragSt : AppState :=
  ⟨⟨[⟨1, "", 0, 0, 120, 64, "#333", none, false⟩], [], ⟨0, 0⟩, 1, some 1,
    {1}, ∅⟩, [], [], none⟩

/-- C1 counterexample: the sequence consisting of one state-mutating
drag gesture (node 1 dragged from the origin to `(100, 0)`) pushes
exactly one snapshot, yet calling `undo()` once afterwards leaves the
node at `(100, 0)` — not at its pre-sequence position `(0, 0)` —
because the drag pushes its snapshot at pointer-up, cloning the
already-moved state rather than the pre-operation state. -/
theorem drag_breaks_round_trip_counterexample :
    (dragGesture 1 0 0 [((100 : ℝ), 0)] dragSt).undos.length = 1
    ∧ ((undo (dragGesture 1 0 0 [((100 : ℝ), 0)] dragSt)).cur.nodes.map
        (fun n => (n.x, n.y))) = [((100 : ℝ), (0 : ℝ))]
    ∧ (dragSt.cur.nodes.map (fun n => (n.x, n.y))) = [((0 : ℝ), (0 : ℝ))]
    ∧ ((100 : ℝ), (0 : ℝ)) ≠ (((0 : ℝ), (0 : ℝ)) : ℝ × ℝ) := by
  have hG : dragGesture 1 0 0 [((100 : ℝ), 0)] dragSt =
      pushHistory (dragMoves 1 0 0 [((100 : ℝ), 0)] dragSt) := rfl
  have hcur : (undo (dragGesture 1 0 0 [((100 : ℝ), 0)] dragSt)).cur =
      (dragMoves 1 0 0 [((100 : ℝ), 0)] dragSt).cur := by
    rw [hG]
    show restoreCur
      (snapshotOf (dragMoves 1 0 0 [((100 : ℝ), 0)] dragSt).cur) = _
    exact restoreCur_snapshotOf _
  refine ⟨by rw [hG]; rfl, ?_, rfl, ?_⟩
  · rw [hcur]
    show ((dragMove 1 0 0 100 0 dragSt).cur.nodes.map
      (fun n => (n.x, n.y))) = _
    norm_num [dragMove, dragSt]
  · intro h
    have h1 : (100 : ℝ) = 0 := congrArg Prod.fst h
    norm_num at h1

/-- C1 (amended): operations that call `pushHistory()` before applying
their change (such as `removeNodes` and `removeEdges`, proved here to
factor through `applyMut`) round-trip: after any sequence of N such
operations, `undo()` N times restores the exact pre-sequence current
state (nodes, edges, selection, pan and scale) and `redo()` N times
restores the final state exactly.  The node-drag gesture however
pushes its single snapshot at pointer-up, cloning the *post-move*
state, so a single `undo()` after a drag leaves the current state
unchanged instead of restoring the pre-drag positions. -/
theorem undo_redo_round_trip (fs : List (Cur → Cur)) (st : AppState) :
    (undo^[fs.length] (applyMuts fs st)).cur = st.cur
    ∧ redo^[fs.length] (undo^[fs.length] (applyMuts fs st)) = applyMuts fs st
    ∧ (∀ ids, removeNodes ids st =
        if ids.isEmpty then st else applyMut (removeNodesCore ids) st)
    ∧ (∀ ids, removeEdges ids st =
        if ids.isEmpty then st else applyMut (removeEdgesCore ids) st)
    ∧ (∀ (id : ℤ) (dx dy : ℝ) (moves : List (ℝ × ℝ)), moves ≠ [] →
        dragGesture id dx dy moves st =
          pushHistory (dragMoves id dx dy moves st)
        ∧ (undo (dragGesture id dx dy moves st)).cur =
          (dragGesture id dx dy moves st).cur) := by
  refine ⟨(roundTrip_aux fs st).1, (roundTrip_aux fs st).2.2.2,
    fun _ => rfl, fun _ => rfl, ?_⟩
  intro id dx dy moves hmv
  have hne : moves.isEmpty = false := by
    rcases moves with - | ⟨m, t⟩
    · exact absurd rfl hmv
    · rfl
  have hG : dragGesture id dx dy moves st =
      pushHistory (dragMoves id dx dy moves st) := by
    rw [dragGesture, hne]
    rfl
  refine ⟨hG, ?_⟩
  rw [hG]
  show restoreCur (snapshotOf (dragMoves id dx dy moves st).cur) = _
  exact restoreCur_snapshotOf _

/-- C1 witness: the drag clause of the round-trip theorem at the
concrete one-move drag on `dragSt`: the gesture is `pushHistory` of
the post-move state, and one `undo()` leaves the current state
unchanged. -/
theorem undo_redo_round_trip_witness :
    dragGesture 1 0 0 [((100 : ℝ), 0)] dragSt =
      pushHistory (dragMoves 1 0 0 [((100 : ℝ), 0)] dragSt)
    ∧ (undo (dragGesture 1 0 0 [((100 : ℝ), 0)] dragSt)).cur =
      (dragGesture 1 0 0 [((100 : ℝ), 0)] dragSt).cur :=
  (undo_redo_round_trip [] dragSt).2.2.2.2 1 0 0 [((100 : ℝ), 0)]
    (by simp)

/-! ## Claim C2: removeNodes cascade and parent selection -/

/-- C2 (amended): `removeNodes(ids)` removes exactly the nodes whose
id is listed and every edge touching a listed id; if `ids` is a
one-element list `[v]` whose resolved parent (source of the first
edge with target `v`) exists and is not listed, that parent becomes
the sole selection; in every other case (including lists with a
duplicated or unknown extra id that still remove exactly one node)
the selection is cleared. -/
theorem removeNodes_spec (ids : List ℤ) (st : AppState) (hne : ids ≠ []) :
    (∀ n, n ∈ (removeNodes ids st).cur.nodes ↔
        n ∈ st.cur.nodes ∧ n.id ∉ ids)
    ∧ (∀ e, e ∈ (removeNodes ids st).cur.edges ↔
        e ∈ st.cur.edges ∧ e.source ∉ ids ∧ e.target ∉ ids)
    ∧ (∀ e ∈ (removeNodes ids st).cur.edges, e.source ∉ ids ∧ e.target ∉ ids)
    ∧ (∀ v p, ids = [v] → getParentId st.cur.edges v = some p → p ∉ ids →
        (removeNodes ids st).cur.selectedId = some p
        ∧ (removeNodes ids st).cur.selectedIds = {p}
        ∧ (removeNodes ids st).cur.selectedEdgeIds = ∅)
    ∧ ((¬ ∃ v p, ids = [v] ∧ getParentId st.cur.edges v = some p ∧ p ∉ ids) →
        (removeNodes ids st).cur.selectedId = none
        ∧ (removeNodes ids st).cur.selectedIds = ∅
        ∧ (removeNodes ids st).cur.selectedEdgeIds = ∅) := by
  have hrem : (removeNodes ids st).cur = removeNodesCore ids st.cur := by
    rw [removeNodes, if_neg (by simpa using hne)]
    rfl
  refine ⟨?_, ?_, ?_, ?_, ?_⟩
  · intro n
    rw [hrem]
    rcases h : nextSelectionFor ids st.cur.edges with - | p <;>
      simp [removeNodesCore, h, clearSelectionC, List.mem_filter]
  · intro e
    rw [hrem]
    rcases h : nextSelectionFor ids st.cur.edges with - | p <;>
      simp [removeNodesCore, h, clearSelectionC, List.mem_filter, and_assoc]
  · intro e he
    rw [hrem] at he
    rcases h : nextSelectionFor ids st.cur.edges with - | p <;>
      simp [removeNodesCore, h, clearSelectionC, List.mem_filter] at he <;>
      tauto
  · intro v p hv hp hnp
    subst hv
    rw [hrem]
    have h : nextSelectionFor [v] st.cur.edges = some p := by
      simp [nextSelectionFor, hp, if_neg (by simpa using hnp)]
    simp [removeNodesCore, h]
  · intro hno
    rw [hrem]
    have h : nextSelectionFor ids st.cur.edges = none := by
      match ids with
      | [] => rfl
      | [v] =>
          rcases hp : getParentId st.cur.edges v with - | p
          · simp [nextSelectionFor, hp]
          · by_cases hmem : p ∈ [v]
            · have hpv : p = v := by simpa using hmem
              subst hpv
              simp [nextSelectionFor, hp]
            · exact absurd ⟨v, p, rfl, hp, hmem⟩ hno
      | a :: b :: rest => rfl
    simp [removeNodesCore, h, clearSelectionC]

/-- A tiny example node for concrete scenarios. -/
def exNode (i : ℤ) (px py : ℝ) : MindNode :=
  ⟨i, "", px, py, 120, 64, "#333", none, false⟩

/-- Concrete two-node state with an edge 1 → 2, node 2 selected. -/
def exC2 : AppState :=
  ⟨⟨[exNode 1 0 0, exNode 2 160 0], [⟨100, 1, 2, none, false, false⟩],
    ⟨0, 0⟩, 1, some 2, {2}, ∅⟩, [], [], none⟩

/-- C2 counterexample: `removeNodes([2, 2])` on `exC2` removes exactly
one node (node 2), whose resolved parent 1 exists and is not being
removed, yet the selection is cleared rather than moved to the
parent — the code tests `ids.length === 1`, not the number of nodes
actually removed. -/
theorem removeNodes_claim_counterexample :
    (exC2.cur.nodes.filter (fun n => n.id ∈ ([2, 2] : List ℤ))).length = 1
    ∧ getParentId exC2.cur.edges 2 = some 1
    ∧ (1 : ℤ) ∉ ([2, 2] : List ℤ)
    ∧ (removeNodes [2, 2] exC2).cur.selectedId = none
    ∧ (removeNodes [2, 2] exC2).cur.selectedIds = ∅ := by
  refine ⟨rfl, rfl, by decide, rfl, rfl⟩

/-- C2 witness: on the concrete state, removing the single node 2
selects its parent 1, and the incident edge is gone. -/
theorem removeNodes_spec_witness :
    (removeNodes [2] exC2).cur.selectedId = some 1
    ∧ (removeNodes [2] exC2).cur.selectedIds = {1}
    ∧ (∀ e ∈ (removeNodes [2] exC2).cur.edges,
        e.source ∉ ([2] : List ℤ) ∧ e.target ∉ ([2] : List ℤ)) := by
  obtain ⟨-, -, hcasc, hpar, -⟩ :=
    removeNodes_spec [2] exC2 (by decide)
  obtain ⟨h1, h2, -⟩ := hpar 2 1 rfl rfl (by decide)
  exact ⟨h1, h2, hcasc⟩

/-! ## Import (`importFromText`, `src/types/index.ts` lines 554-590)

The JSON text has already been parsed; `JSON.parse` failure and a
`null` result are modelled by the `Option` around `RawImport`.  A
field that is present as an array is `some` of a well-typed list
(`Array.isArray` is `Option.isSome`; the source casts array contents
unchecked), any other value is `none`.  The returned `Option String`
is the user-visible `alert` message, `none` when the import was
accepted. -/

/-- The parsed import document as observed by `importFromText`. -/
structure RawImport where
  nodes : Option (List MindNode)
  edges : Option (List Link)
  pan : Option Pt
  scale : Option ℝ
  selectedId : Option ℤ
  selectedIds : Option (List ℤ)
  selectedEdgeIds : Option (List ℤ)

/-- `importFromText` from the source, after parsing: reject (with an
alert) unless both `nodes` and `edges` are arrays; restore a full
snapshot wholesale when `pan` and `scale` are well-formed; otherwise
accept the legacy form with camera reset to origin/scale 1 and
selection cleared.  Import does not touch the history stacks. -/
def importFromRaw (raw : Option RawImport) (st : AppState) :
    AppState × Option String :=
  match raw with
  | none => (st, some "Datei scheint keine gueltige Mindmap zu sein.")
  | some r =>
      match r.nodes, r.edges with
      | some ns, some es =>
          match r.pan, r.scale with
          | some pv, some sv =>
              let snap : Snapshot :=
                ⟨ns, es, pv, sv, r.selectedId, r.selectedIds.getD [],
                 r.selectedEdgeIds.getD []⟩
              ({ st with cur := restoreCur snap }, none)
          | _, _ =>
              let c1 : Cur :=
                { st.cur with nodes := ns, edges := es,
                              pan := ⟨0, 0⟩, scale := 1 }
              ({ st with cur := clearSelectionC c1 }, none)
      | _, _ => (st, some "Datei scheint keine gueltige Mindmap zu sein.")

/-! ## Claim C7: malformed import is rejected without mutation -/

/-- C7: an import whose `nodes` or `edges` field is not an array (or
whose text did not parse to an object) is rejected without mutating
any part of the engine state, and a user-visible error is surfaced. -/
theorem import_malformed_rejected (raw : Option RawImport) (st : AppState)
    (hbad : raw = none ∨ ∃ r, raw = some r ∧ (r.nodes = none ∨ r.edges = none)) :
    (importFromRaw raw st).1 = st ∧ (importFromRaw raw st).2.isSome := by
  rcases hbad with h | ⟨r, hr, hbad⟩
  · subst h
    exact ⟨rfl, rfl⟩
  · subst hr
    rcases hn : r.nodes with - | ns <;> rcases he : r.edges with - | es <;>
      simp_all [importFromRaw]

/-- The parsed form of the concrete scenario `{nodes:[],edges:"x"}`:
`nodes` is an (empty) array, `edges` is a string, hence not an
array. -/
def rawNodesOnly : RawImport :=
  ⟨some [], none, none, none, none, none, none⟩

/-- C7 witness: importing `{nodes:[],edges:"x"}` changes nothing on
the concrete state `exC2` and surfaces an error. -/
theorem import_malformed_rejected_witness :
    (importFromRaw (some rawNodesOnly) exC2).1 = exC2
    ∧ (importFromRaw (some rawNodesOnly) exC2).2.isSome :=
  import_malformed_rejected (some rawNodesOnly) exC2
    (Or.inr ⟨rawNodesOnly, rfl, Or.inr rfl⟩)

/-! ## LabelLayout (`src/utils/layout.ts`, `src/utils/math.ts`)

Box sizes and font sizes only ever arise from rational arithmetic
(`0.6 = 3/5`, `1.15 = 23/20`, `0.35 = 7/20`, `round`, `ceil`), so this
part of the embedding is rational and fully executable.  JavaScript
`Math.round` is `⌊x + 1/2⌋` = Mathlib `round`, `Math.ceil` is
`Int.ceil`. -/

/-- `clamp(v, a, b)` from `utils/math.ts`: `max(a, min(b, v))`. -/
def clamp (v a b : ℚ) : ℚ := max a (min b v)

/-- `approxTextWidth(text, fontSize) = text.length * fontSize * 0.6`. -/
def approxTextWidth (text : String) (fontSize : ℚ) : ℚ :=
  (text.length : ℚ) * fontSize * (3 / 5)

/-- `label.split(/\s+/).filter(Boolean)`. -/
def splitWords (label : String) : List String :=
  (label.split (fun c => c.isWhitespace)).filter (fun w => w ≠ "")

/-- The greedy per-line packing inside `rebuild()`: pack the word items
into lines whose approximate width fits `width - 2 * paddingX`.  The
accumulator carries the finished lines and the current line; a falsy
(empty) current line is never pushed. -/
def wrapWords (items : List String) (font width : ℚ) : List String :=
  let step := fun (acc : List String × String) (w : String) =>
    let test := if acc.2 = "" then w else acc.2 ++ " " ++ w
    if approxTextWidth test font ≤ width - 32 then (acc.1, test)
    else ((if acc.2 = "" then acc.1 else acc.1 ++ [acc.2]), w)
  let fin := items.foldl step ([], "")
  if fin.2 = "" then fin.1 else fin.1 ++ [fin.2]

/-- `label.replace(/\s+/g, " ").trim().length || 1`. -/
def normalizedLen (label : String) : ℕ :=
  let n := (String.intercalate " " (splitWords label)).length
  if n = 0 then 1 else n

/-- One call of `rebuild()`: wrap at the current width; if more than
`maxLines = 3` lines result, widen the width from the per-line
character budget `ceil(textLen / maxLines)` and report failure. -/
def rebuildStep (items : List String) (font : ℚ) (tlen : ℕ) (width : ℚ) :
    List String × ℚ × Bool :=
  let lines := wrapWords items font width
  if 3 < lines.length then
    let target : ℤ := ⌈(tlen : ℚ) / 3⌉
    (lines, max width ((⌈(target : ℚ) * font * (3 / 5) + 32⌉ : ℤ) : ℚ), false)
  else (lines, width, true)

/-- The `for (let i = 0; i < 6; i++) if (rebuild()) break;` loop:
`fuel` is the number of retries remaining after the current call (the
source runs at most 6 rebuilds, i.e. `fuel = 5`). -/
def layoutLoop (items : List String) (font : ℚ) (tlen : ℕ) :
    ℕ → ℚ → List String × ℚ × Bool
  | fuel, width =>
      match rebuildStep items font tlen width with
      | (lines, width', true) => (lines, width', true)
      | (lines, width', false) =>
          match fuel with
          | 0 => (lines, width', false)
          | fuel' + 1 => layoutLoop items font tlen fuel' width'

/-- The record returned by `layoutLabel` (paddings are the constants
16 and 12). -/
structure LayoutResult where
  lines : List String
  width : ℚ
  height : ℚ
  lineHeight : ℚ
  fontSize : ℚ

/-- The items fed to the wrap: `words.length ? words : [label]`. -/
def layoutItems (label : String) : List String :=
  let words := splitWords label
  if words.isEmpty then [label] else words

/-- `layoutLabel(label, baseFont, minW)` from `utils/layout.ts`. -/
def layoutLabel (label : String) (baseFont minW : ℚ) : LayoutResult :=
  let lineHeight : ℚ := ((round (baseFont * (23 / 20)) : ℤ) : ℚ)
  let res := layoutLoop (layoutItems label) baseFont (normalizedLen label) 5
    (max minW 120)
  let textW := (res.1.map (fun t => approxTextWidth t baseFont)).foldr max 0
  let width := max res.2.1 ((⌈textW + 32⌉ : ℤ) : ℚ)
  let height :=
    max 64 ((⌈(res.1.length : ℚ) * lineHeight + 24⌉ : ℤ) : ℚ)
  ⟨res.1, width, height, lineHeight, baseFont⟩

/-- The font size computed by `resizeNodeForLabel`:
`Math.round(Math.max(12, Math.min(20, node.h * 0.35)))`. -/
def nodeBaseFont (n : MindNode) : ℚ :=
  ((round (max 12 (min 20 (n.h * (7 / 20)))) : ℤ) : ℚ)

/-- `resizeNodeForLabel(node)` from `utils/layout.ts`: re-run the
layout with the node's current width as the minimum width and replace
width/height. -/
def resizeNodeForLabel (n : MindNode) : MindNode :=
  let L := layoutLabel n.label (nodeBaseFont n) n.w
  { n with w := L.width, h := L.height }

/-- The layout widening loop only ever grows the width. -/
theorem layoutLoop_width_mono (items : List String) (font : ℚ) (tlen : ℕ) :
    ∀ fuel width, width ≤ (layoutLoop items font tlen fuel width).2.1 := by
  intro fuel
  induction fuel with
  | zero =>
      intro width
      rw [layoutLoop]
      rcases h : rebuildStep items font tlen width with ⟨lines, width', ok⟩
      have hw : width ≤ width' := by
        rw [rebuildStep] at h
        by_cases hc : 3 < (wrapWords items font width).length
        · rw [if_pos hc] at h
          cases h
          exact le_max_left _ _
        · rw [if_neg hc] at h
          cases h
          exact le_refl _
      cases ok <;> simpa using hw
  | succ fuel' ih =>
      intro width
      rw [layoutLoop]
      rcases h : rebuildStep items font tlen width with ⟨lines, width', ok⟩
      have hw : width ≤ width' := by
        rw [rebuildStep] at h
        by_cases hc : 3 < (wrapWords items font width).length
        · rw [if_pos hc] at h
          cases h
          exact le_max_left _ _
        · rw [if_neg hc] at h
          cases h
          exact le_refl _
      cases ok
      · exact le_trans hw (ih width')
      · simpa using hw

/-- When the widening loop reports success, the produced wrap has at
most `maxLines = 3` lines. -/
theorem layoutLoop_ok_lines (items : List String) (font : ℚ) (tlen : ℕ) :
    ∀ fuel width, (layoutLoop items font tlen fuel width).2.2 = true →
      (layoutLoop items font tlen fuel width).1.length ≤ 3 := by
  intro fuel
  induction fuel with
  | zero =>
      intro width
      rw [layoutLoop]
      rcases h : rebuildStep items font tlen width with ⟨lines, width', ok⟩
      have hl : ok = true → lines.length ≤ 3 := by
        rw [rebuildStep] at h
        by_cases hc : 3 < (wrapWords items font width).length
        · rw [if_pos hc] at h
          cases h
          intro hfalse
          cases hfalse
        · rw [if_neg hc] at h
          cases h
          intro _
          omega
      cases ok
      · intro hfalse
        cases hfalse
      · intro _
        simpa using hl rfl
  | succ fuel' ih =>
      intro width
      rw [layoutLoop]
      rcases h : rebuildStep items font tlen width with ⟨lines, width', ok⟩
      have hl : ok = true → lines.length ≤ 3 := by
        rw [rebuildStep] at h
        by_cases hc : 3 < (wrapWords items font width).length
        · rw [if_pos hc] at h
          cases h
          intro hfalse
          cases hfalse
        · rw [if_neg hc] at h
          cases h
          intro _
          omega
      cases ok
      · exact ih width'
      · intro _
        simpa using hl rfl

theorem layoutLabel_lines_eq (label : String) (f m : ℚ) :
    (layoutLabel label f m).lines =
      (layoutLoop (layoutItems label) f (normalizedLen label) 5 (max m 120)).1 :=
  rfl

theorem layoutLabel_width_ge (label : String) (f m : ℚ) :
    max m 120 ≤ (layoutLabel label f m).width := by
  have h1 := layoutLoop_width_mono (layoutItems label) f (normalizedLen label)
    5 (max m 120)
  exact le_trans h1 (le_max_left _ _)

theorem layoutLabel_height_ge (label : String) (f m : ℚ) :
    64 ≤ (layoutLabel label f m).height :=
  le_max_left _ _

/-! ## Claim C5: bounds produced by resizeNodeForLabel -/

/-- C5 (amended): after `resizeNodeForLabel(n)` the box respects the
minimum sizes, `w ≥ 120` and `h ≥ 64`, unconditionally; the wrapped
line count is at most `maxLines = 3` whenever the bounded widening
loop converged (`rebuild()` succeeded within its 6 rounds).  Labels
whose words cannot be packed into 3 lines even at the widened width
exhaust the loop and keep more than 3 lines. -/
theorem resizeNodeForLabel_bounds (n : MindNode) :
    120 ≤ (resizeNodeForLabel n).w
    ∧ 64 ≤ (resizeNodeForLabel n).h
    ∧ ((layoutLoop (layoutItems n.label) (nodeBaseFont n)
          (normalizedLen n.label) 5 (max n.w 120)).2.2 = true →
        (layoutLabel n.label (nodeBaseFont n) n.w).lines.length ≤ 3) := by
  refine ⟨?_, ?_, ?_⟩
  · have h := layoutLabel_width_ge n.label (nodeBaseFont n) n.w
    exact le_trans (le_max_right _ _) h
  · exact layoutLabel_height_ge n.label (nodeBaseFont n) n.w
  · intro hok
    rw [layoutLabel_lines_eq]
    exact layoutLoop_ok_lines (layoutItems n.label) (nodeBaseFont n)
      (normalizedLen n.label) 5 (max n.w 120) hok

/-- A node whose label is four 7-character words, at the default box
size (the derived font is 20, so two such words never share a line
even after widening). -/
def exNodeC5 : MindNode :=
  ⟨1, "aaaaaaa bbbbbbb ccccccc ddddddd", 0, 0, 120, 64, "#333", none, false⟩

/-- C5 counterexample: the claim says the wrapped line count is always
at most 3, but for `exNodeC5` the label layout used by
`resizeNodeForLabel` produces 4 lines — the widening loop exhausts its
6 rounds without reaching 3 lines (the widened width is a fixed point
after the first failure). -/
theorem resizeNodeForLabel_lines_counterexample :
    (layoutLabel exNodeC5.label (nodeBaseFont exNodeC5) exNodeC5.w).lines.length
      = 4 := by with_unfolding_all decide

/-- C5 witness: on a concrete empty-label node the widening loop
converges, so the amended theorem yields the 3-line bound, alongside
the unconditional box minima. -/
theorem resizeNodeForLabel_bounds_witness :
    120 ≤ (resizeNodeForLabel (exNode 1 0 0)).w
    ∧ 64 ≤ (resizeNodeForLabel (exNode 1 0 0)).h
    ∧ (layoutLabel (exNode 1 0 0).label (nodeBaseFont (exNode 1 0 0))
        (exNode 1 0 0).w).lines.length ≤ 3 := by
  obtain ⟨hw, hh, hc⟩ := resizeNodeForLabel_bounds (exNode 1 0 0)
  exact ⟨hw, hh, hc (by with_unfolding_all decide)⟩

/-! ## Claim C8: font derivation and width monotonicity -/

theorem round_mono_q {x y : ℚ} (h : x ≤ y) : round x ≤ round y := by
  rw [round_eq, round_eq]
  exact Int.floor_le_floor (by linarith)

theorem round_q_twelve : round (12 : ℚ) = 12 := by
  rw [show (12 : ℚ) = ((12 : ℤ) : ℚ) by norm_num]
  exact round_intCast 12

theorem round_q_twenty : round (20 : ℚ) = 20 := by
  rw [show (20 : ℚ) = ((20 : ℤ) : ℚ) by norm_num]
  exact round_intCast 20

/-- Rounding commutes with clamping to the integer bounds 12 and 20. -/
theorem round_clamp_comm (x : ℚ) :
    round (max 12 (min 20 x)) = max 12 (min 20 (round x)) := by
  rcases le_or_lt x 20 with h20 | h20
  · rw [min_eq_right h20]
    have h20' : round x ≤ 20 := by
      have := round_mono_q h20
      rwa [round_q_twenty] at this
    rw [min_eq_right h20']
    rcases le_or_lt x 12 with h12 | h12
    · have h12' : round x ≤ 12 := by
        have := round_mono_q h12
        rwa [round_q_twelve] at this
      rw [max_eq_left h12, max_eq_left h12', round_q_twelve]
    · have h12' : (12 : ℤ) ≤ round x := by
        have := round_mono_q h12.le
        rwa [round_q_twelve] at this
      rw [max_eq_right h12.le, max_eq_right h12']
  · have h12 : (12 : ℚ) ≤ 20 := by norm_num
    rw [min_eq_left h20.le, max_eq_right h12, round_q_twenty]
    have h20' : (20 : ℤ) ≤ round x := by
      have := round_mono_q h20.le
      rwa [round_q_twenty] at this
    rw [min_eq_left h20', max_eq_right (by norm_num : (12 : ℤ) ≤ 20)]

/-- C8: `resizeNodeForLabel(node)` derives its font size from the
node's current height as `clamp(round(h * 0.35), 12, 20)` (the source
writes it as `round(max(12, min(20, h * 0.35)))`, an equal
expression), and re-runs the label layout with the node's current
width as the minimum width, so the resulting width is never smaller
than the node's width before the call. -/
theorem resizeNodeForLabel_font_and_min_width (n : MindNode) :
    nodeBaseFont n = clamp ((round (n.h * (7 / 20)) : ℤ) : ℚ) 12 20
    ∧ n.w ≤ (resizeNodeForLabel n).w := by
  constructor
  · rw [nodeBaseFont, clamp, round_clamp_comm]
    push_cast
    rfl
  · have h := layoutLabel_width_ge n.label (nodeBaseFont n) n.w
    exact le_trans (le_max_left _ _) h

/-! ## Geometry and the placement engine
(`src/types/index.ts` lines 442-461 and 606-726; the copy of
`addStandalone` in `App.tsx` elides the occupied-point branch with a
`Placement logic omitted` comment and is not the complete source.)
World coordinates flow through `cos`/`sin`/`sqrt`, so these
definitions live on `ℝ` and branch classically. -/

/-- `BASE_W` from the constants. -/
def BASE_W : ℚ := 120

/-- `BASE_H` from the constants. -/
def BASE_H : ℚ := 64

/-- `GOLDEN_ANGLE = Math.PI * (3 - Math.sqrt(5))`. -/
noncomputable def GOLDEN_ANGLE : ℝ := Real.pi * (3 - Real.sqrt 5)

/-- `CHILD_RADIUS` from the constants. -/
noncomputable def CHILD_RADIUS : ℝ := 160

/-- `Math.hypot(x, y)`. -/
noncomputable def hypot (x y : ℝ) : ℝ := Real.sqrt (x ^ 2 + y ^ 2)

/-- `rectRadius(n) = Math.max(n.w, n.h) / 2`. -/
noncomputable def rectRadius (n : MindNode) : ℝ := ((max n.w n.h : ℚ) : ℝ) / 2

/-- `distPointToSeg` from `utils/math.ts` (`len2 = v·v || 1e-6`
models the JavaScript `||` fallback for a degenerate segment). -/
noncomputable def distPointToSeg (px py x1 y1 x2 y2 : ℝ) : ℝ :=
  let vx := x2 - x1
  let vy := y2 - y1
  let wx := px - x1
  let wy := py - y1
  let len2 := if vx * vx + vy * vy = 0 then 1 / 1000000 else vx * vx + vy * vy
  let t := max 0 (min 1 ((wx * vx + wy * vy) / len2))
  hypot (px - (x1 + t * vx)) (py - (y1 + t * vy))

/-- `isPositionFree(x, y, parentId?)` from the source: the point is
free iff it clears every node (bounding-circle distance
`rectRadius(n) + max(BASE_W, BASE_H)/2 + 8`) except the parent, and
every edge (segment distance `max(BASE_W, BASE_H)/2 + 6`) not
incident to the parent; edges with a missing endpoint are skipped. -/
def isPositionFree (ns : List MindNode) (es : List Link) (x y : ℝ)
    (parentId : Option ℤ) : Prop :=
  (∀ n ∈ ns, (match parentId with | some p => n.id ≠ p | none => True) →
    rectRadius n + ((max BASE_W BASE_H : ℚ) : ℝ) / 2 + 8 ≤
      hypot (n.x - x) (n.y - y))
  ∧ (∀ e ∈ es,
      (match parentId with
       | some p => e.source ≠ p ∧ e.target ≠ p
       | none => True) →
      ∀ s t, ns.find? (fun n => n.id == e.source) = some s →
        ns.find? (fun n => n.id == e.target) = some t →
        ((max BASE_W BASE_H : ℚ) : ℝ) / 2 + 6 ≤
          distPointToSeg x y s.x s.y t.x t.y)

open Classical in
/-- The golden-angle search loop shared by both `addStandalone`
branches: test the candidate at the current angle/radius; on success
return it, on failure advance the angle by `GOLDEN_ANGLE` and grow the
radius by `step` after every 6th iteration (`i % 6 === 5`); `none`
when the iteration bound is exhausted. -/
noncomputable def spiralLoop (ns : List MindNode) (es : List Link)
    (x y step : ℝ) : ℕ → ℕ → ℝ → ℝ → Option (ℝ × ℝ)
  | 0, _, _, _ => none
  | fuel + 1, i, a, r =>
      let cx := x + Real.cos a * r
      let cy := y + Real.sin a * r
      if isPositionFree ns es cx cy none then some (cx, cy)
      else spiralLoop ns es x y step fuel (i + 1) (a + GOLDEN_ANGLE)
        (if i % 6 = 5 then r + step else r)

/-- The candidate point tested at iteration `i` of the spiral when the
loop starts at angle 0 and radius `r0`: angle `i * GOLDEN_ANGLE`,
radius `r0 + step * (i / 6)`. -/
noncomputable def spiralCand (x y r0 step : ℝ) (i : ℕ) : ℝ × ℝ :=
  (x + Real.cos (i * GOLDEN_ANGLE) * (r0 + step * ((i / 6 : ℕ) : ℝ)),
   y + Real.sin (i * GOLDEN_ANGLE) * (r0 + step * ((i / 6 : ℕ) : ℝ)))

/-- `Math.max(...nodes.map(n => n.id)) + 1`, or 1 for an empty map. -/
def nextNodeId (ns : List MindNode) : ℤ :=
  match ns.map (fun n => n.id) with
  | [] => 1
  | h :: t => t.foldl max h + 1

open Classical in
/-- `addStandalone(at?)` from the source.  The viewport centre in
world coordinates (derived from the SVG rect, pan and scale) is passed
as `center`.  With `at` given and occupied the spiral starts at radius
12, grows by 12, and is bounded at 60 iterations; with no `at` it
starts at the centre with radius 0, grows by 24, bounded at 120.  In
both branches an exhausted search leaves the start point in place. -/
noncomputable def addStandalone (atPt : Option Pt) (center : Pt)
    (st : AppState) : AppState × ℤ :=
  let st1 := pushHistory st
  let newId := nextNodeId st1.cur.nodes
  let pos : ℝ × ℝ :=
    match atPt with
    | some p =>
        if isPositionFree st1.cur.nodes st1.cur.edges p.x p.y none then
          (p.x, p.y)
        else
          (spiralLoop st1.cur.nodes st1.cur.edges p.x p.y 12 60 0 0 12).getD
            (p.x, p.y)
    | none =>
        (spiralLoop st1.cur.nodes st1.cur.edges center.x center.y 24
            120 0 0 0).getD (center.x, center.y)
  let node : MindNode :=
    ⟨newId, "", pos.1, pos.2, BASE_W, BASE_H, "#333", none, false⟩
  ({ st1 with cur := { st1.cur with nodes := st1.cur.nodes ++ [node] } },
   newId)

open Classical in
/-- The placement loop of `addChild`: the candidate is assigned to
`x`/`y` before the test, so an exhausted search keeps the last tried
point; the radius grows by 24 after every 8th iteration
(`i % 8 === 7`), and the parent's own incident geometry is excluded
from the collision checks. -/
noncomputable def childSpiral (ns : List MindNode) (es : List Link)
    (px py : ℝ) (pid : ℤ) : ℕ → ℕ → ℝ → ℝ → ℝ × ℝ
  | 0, _, _, _ => (px, py)
  | fuel + 1, i, a, r =>
      let cx := px + Real.cos a * r
      let cy := py + Real.sin a * r
      if isPositionFree ns es cx cy (some pid) ∨ fuel = 0 then (cx, cy)
      else childSpiral ns es px py pid fuel (i + 1) (a + GOLDEN_ANGLE)
        (if i % 8 = 7 then r + 24 else r)

/-- `addChild(parentId)` from the source: no-op (returning the given
id) when the parent does not exist — the existence check precedes
`pushHistory()`.  Otherwise push history, place the child on the
golden-angle circle of radius `CHILD_RADIUS` starting at
`(existing children) × GOLDEN_ANGLE`, bounded at 96 iterations, and
atomically append the child (inheriting the parent's style) and the
`parent → child` edge whose fresh id (`Date.now()`) is `eid`. -/
noncomputable def addChild (pid : ℤ) (eid : ℤ) (st : AppState) :
    AppState × ℤ :=
  match st.cur.nodes.find? (fun n => n.id == pid) with
  | none => (st, pid)
  | some parent =>
      let st1 := pushHistory st
      let newId := nextNodeId st1.cur.nodes
      let a0 : ℝ :=
        ((getChildrenOf st1.cur.edges pid).length : ℝ) * GOLDEN_ANGLE
      let pos := childSpiral st1.cur.nodes st1.cur.edges parent.x parent.y
        pid 96 0 a0 CHILD_RADIUS
      let child : MindNode :=
        ⟨newId, "", pos.1, pos.2, BASE_W, BASE_H, parent.strokeColor,
         parent.fillColor, false⟩
      ({ st1 with cur := { st1.cur with
          nodes := st1.cur.nodes ++ [child]
          edges := st1.cur.edges ++ [⟨eid, pid, newId, none, false, false⟩] } },
       newId)

theorem hypot_cos_sin (a r : ℝ) :
    hypot (Real.cos a * r) (Real.sin a * r) = |r| := by
  rw [hypot, show (Real.cos a * r) ^ 2 + (Real.sin a * r) ^ 2 = r ^ 2 by
    linear_combination r ^ 2 * Real.sin_sq_add_cos_sq a]
  exact Real.sqrt_sq_eq_abs r

open Classical in
/-- The first free candidate among `spiralCand x y r0 step 0, …,
spiralCand x y r0 step (bound - 1)`, scanned in order. -/
noncomputable def spiralFirstFree (ns : List MindNode) (es : List Link)
    (x y r0 step : ℝ) (bound : ℕ) : Option (ℝ × ℝ) :=
  (List.range bound).findSome? (fun j =>
    if isPositionFree ns es (spiralCand x y r0 step j).1
        (spiralCand x y r0 step j).2 none
    then some (spiralCand x y r0 step j) else none)

open Classical in
/-- The golden-angle spiral loop, started at angle 0 and radius `r0`,
tests exactly the candidates `spiralCand x y r0 step i` for
`i = 0, 1, …` in order and returns the first free one: the angle of
the `i`-th test is `i * GOLDEN_ANGLE` and its radius has grown by
`step` once per completed block of 6 iterations. -/
theorem spiralLoop_closed (ns : List MindNode) (es : List Link)
    (x y r0 step : ℝ) :
    ∀ fuel i,
      spiralLoop ns es x y step fuel i ((i : ℝ) * GOLDEN_ANGLE)
        (r0 + step * ((i / 6 : ℕ) : ℝ)) =
      (List.range' i fuel).findSome? (fun j =>
        if isPositionFree ns es (spiralCand x y r0 step j).1
            (spiralCand x y r0 step j).2 none
        then some (spiralCand x y r0 step j) else none) := by
  intro fuel
  induction fuel with
  | zero => intro i; rfl
  | succ f ih =>
      intro i
      rw [List.range'_succ, List.findSome?_cons, spiralLoop]
      simp only [spiralCand]
      by_cases hfree : isPositionFree ns es
          (x + Real.cos ((i : ℝ) * GOLDEN_ANGLE) *
            (r0 + step * ((i / 6 : ℕ) : ℝ)))
          (y + Real.sin ((i : ℝ) * GOLDEN_ANGLE) *
            (r0 + step * ((i / 6 : ℕ) : ℝ))) none
      · rw [if_pos hfree, if_pos hfree]
      · rw [if_neg hfree, if_neg hfree]
        have ha : (i : ℝ) * GOLDEN_ANGLE + GOLDEN_ANGLE =
            ((i + 1 : ℕ) : ℝ) * GOLDEN_ANGLE := by
          push_cast
          ring
        have hr : (if i % 6 = 5 then (r0 + step * ((i / 6 : ℕ) : ℝ)) + step
              else r0 + step * ((i / 6 : ℕ) : ℝ)) =
            r0 + step * (((i + 1) / 6 : ℕ) : ℝ) := by
          by_cases h6 : i % 6 = 5
          · rw [if_pos h6, show (i + 1) / 6 = i / 6 + 1 by omega]
            push_cast
            ring
          · rw [if_neg h6, show (i + 1) / 6 = i / 6 by omega]
        rw [ha, hr, ih (i + 1)]
        simp only [spiralCand]

/-- The spiral with starting angle 0 and radius `r0` scans exactly the
candidate indices `0, …, bound - 1`. -/
theorem spiralLoop_closed_zero (ns : List MindNode) (es : List Link)
    (x y r0 step : ℝ) (bound : ℕ) :
    spiralLoop ns es x y step bound 0 0 r0 =
      spiralFirstFree ns es x y r0 step bound := by
  have h := spiralLoop_closed ns es x y r0 step bound 0
  rw [spiralFirstFree, List.range_eq_range']
  simpa using h

open Classical in
theorem spiralFirstFree_eq_none (ns : List MindNode) (es : List Link)
    (x y r0 step : ℝ) (bound : ℕ)
    (h : ∀ i < bound, ¬ isPositionFree ns es (spiralCand x y r0 step i).1
      (spiralCand x y r0 step i).2 none) :
    spiralFirstFree ns es x y r0 step bound = none := by
  rw [spiralFirstFree, List.findSome?_eq_none_iff]
  intro j hj
  rw [if_neg (h j (by simpa using hj))]

/-- A single enormous box (width 100000) centred at the origin: its
bounding circle blocks every point within distance 50068. -/
def bigNode : MindNode := ⟨1, "", 0, 0, 100000, 64, "#333", none, false⟩

/-- The state holding only `bigNode`. -/
def bigSt : AppState :=
  ⟨⟨[bigNode], [], ⟨0, 0⟩, 1, none, ∅, ∅⟩, [], [], none⟩

theorem big_blocked (cx cy : ℝ) (h : hypot (0 - cx) (0 - cy) < 50068) :
    ¬ isPositionFree [bigNode] [] cx cy none := by
  rintro ⟨h1, -⟩
  have hb := h1 bigNode (by simp) trivial
  have hrr : rectRadius bigNode + ((max BASE_W BASE_H : ℚ) : ℝ) / 2 + 8 =
      50068 := by
    norm_num [rectRadius, bigNode, BASE_W, BASE_H]
  rw [hrr] at hb
  have hx : bigNode.x = (0 : ℝ) := rfl
  have hy : bigNode.y = (0 : ℝ) := rfl
  rw [hx, hy] at hb
  linarith

theorem bigSpiral_none :
    ∀ (fuel i : ℕ) (a r : ℝ), 0 ≤ r → r + 12 * (fuel : ℝ) ≤ 1000 →
      spiralLoop [bigNode] [] 0 0 12 fuel i a r = none := by
  intro fuel
  induction fuel with
  | zero => intro i a r h0 hb; rfl
  | succ f ih =>
      intro i a r h0 hb
      rw [spiralLoop]
      have hb' : r ≤ 1000 := by
        have : (0 : ℝ) ≤ 12 * ((f : ℝ) + 1) := by positivity
        push_cast at hb
        linarith
      have hblock : ¬ isPositionFree [bigNode] []
          (0 + Real.cos a * r) (0 + Real.sin a * r) none := by
        apply big_blocked
        have hh : hypot (0 - (0 + Real.cos a * r)) (0 - (0 + Real.sin a * r))
            = |r| := by
          rw [show (0 : ℝ) - (0 + Real.cos a * r) = Real.cos a * (-r) by ring,
              show (0 : ℝ) - (0 + Real.sin a * r) = Real.sin a * (-r) by ring,
              hypot_cos_sin, abs_neg]
        rw [hh, abs_of_nonneg h0]
        linarith
      rw [if_neg hblock]
      by_cases h6 : i % 6 = 5
      · rw [if_pos h6]
        apply ih
        · linarith
        · push_cast at hb ⊢
          linarith
      · rw [if_neg h6]
        apply ih
        · exact h0
        · push_cast at hb ⊢
          linarith

/-! ## Claim C4: addStandalone golden-angle spiral placement -/

/-- C4 (amended): `addStandalone` always terminates and appends
exactly one node, both with a requested point and with the default
viewport centre; when the requested point (or centre) needs a search,
the golden-angle spiral tests `(x + cos(angle)·radius,
y + sin(angle)·radius)` starting at angle 0, advancing the angle by
`π(3 − √5)` per failure and growing the radius by a fixed step every
6 iterations, bounded at 60 (occupied `at`) or 120 (centre)
iterations; if the search is exhausted the node is placed at the
*original* requested point (or centre), not at the last tried
candidate. -/
theorem addStandalone_spec (st : AppState) (p center : Pt) :
    ((addStandalone (some p) center st).1.cur.nodes.length =
        st.cur.nodes.length + 1
      ∧ (addStandalone (some p) center st).1.cur.nodes.take
          st.cur.nodes.length = st.cur.nodes)
    ∧ ((addStandalone none center st).1.cur.nodes.length =
        st.cur.nodes.length + 1)
    ∧ (∀ bound r0 step,
        spiralLoop st.cur.nodes st.cur.edges p.x p.y step bound 0 0 r0 =
          spiralFirstFree st.cur.nodes st.cur.edges p.x p.y r0 step bound)
    ∧ (¬ isPositionFree st.cur.nodes st.cur.edges p.x p.y none →
        (∀ i < 60, ¬ isPositionFree st.cur.nodes st.cur.edges
            (spiralCand p.x p.y 12 12 i).1 (spiralCand p.x p.y 12 12 i).2
            none) →
        (addStandalone (some p) center st).1.cur.nodes.getLast? =
          some ⟨nextNodeId st.cur.nodes, "", p.x, p.y, BASE_W, BASE_H,
            "#333", none, false⟩)
    ∧ ((∀ i < 120, ¬ isPositionFree st.cur.nodes st.cur.edges
            (spiralCand center.x center.y 0 24 i).1
            (spiralCand center.x center.y 0 24 i).2 none) →
        (addStandalone none center st).1.cur.nodes.getLast? =
          some ⟨nextNodeId st.cur.nodes, "", center.x, center.y, BASE_W,
            BASE_H, "#333", none, false⟩) := by
  refine ⟨⟨?_, ?_⟩, ?_, ?_, ?_, ?_⟩
  · simp [addStandalone, pushHistory]
  · show (st.cur.nodes ++ [_]).take st.cur.nodes.length = st.cur.nodes
    exact List.take_left st.cur.nodes _
  · simp [addStandalone, pushHistory]
  · intro bound r0 step
    exact spiralLoop_closed_zero st.cur.nodes st.cur.edges p.x p.y r0 step
      bound
  · intro hocc hexh
    have hnone : spiralLoop st.cur.nodes st.cur.edges p.x p.y 12 60 0 0 12 =
        none := by
      rw [spiralLoop_closed_zero]
      exact spiralFirstFree_eq_none _ _ _ _ _ _ _ hexh
    show (st.cur.nodes ++ [_]).getLast? = _
    rw [List.getLast?_concat]
    simp only [addStandalone, pushHistory]
    rw [if_neg hocc, hnone]
    rfl
  · intro hexh
    have hnone : spiralLoop st.cur.nodes st.cur.edges center.x center.y 24
        120 0 0 0 = none := by
      rw [spiralLoop_closed_zero]
      exact spiralFirstFree_eq_none _ _ _ _ _ _ _ hexh
    show (st.cur.nodes ++ [_]).getLast? = _
    rw [List.getLast?_concat]
    simp only [addStandalone, pushHistory]
    rw [hnone]
    rfl

theorem bigSt_origin_occupied :
    ¬ isPositionFree bigSt.cur.nodes bigSt.cur.edges 0 0 none := by
  apply big_blocked
  have h0 : hypot ((0 : ℝ) - 0) ((0 : ℝ) - 0) = 0 := by
    simp [hypot]
  rw [h0]
  norm_num

/-- C4 counterexample: on `bigSt` every spiral candidate around the
origin is occupied, and `addStandalone` then places the node at the
*originally requested* point `(0, 0)` — while the last tried spiral
candidate (iteration 59, radius 120) is a different point, because
`cos` and `sin` of its angle cannot both vanish.  So "if exhausted,
use the last tried point" is false of the code. -/
theorem addStandalone_lastTried_counterexample :
    ((addStandalone (some ⟨0, 0⟩) ⟨0, 0⟩ bigSt).1.cur.nodes.getLast?.map
      (fun n => (n.x, n.y))) = some ((0 : ℝ), (0 : ℝ))
    ∧ spiralCand 0 0 12 12 59 ≠ ((0 : ℝ), (0 : ℝ)) := by
  constructor
  · have hnone : spiralLoop bigSt.cur.nodes bigSt.cur.edges 0 0 12 60 0 0 12 =
        none := by
      apply bigSpiral_none 60 0 0 12 (by norm_num)
      norm_num
    have hlast : (addStandalone (some ⟨0, 0⟩) ⟨0, 0⟩ bigSt).1.cur.nodes =
        bigSt.cur.nodes ++ [⟨nextNodeId bigSt.cur.nodes, "", 0, 0, BASE_W,
          BASE_H, "#333", none, false⟩] := by
      simp only [addStandalone, pushHistory]
      rw [if_neg bigSt_origin_occupied, hnone]
      rfl
    rw [hlast, List.getLast?_concat]
    rfl
  · intro hEq
    have h1 : (spiralCand (0 : ℝ) 0 12 12 59).1 = 0 := by rw [hEq]
    have h2 : (spiralCand (0 : ℝ) 0 12 12 59).2 = 0 := by rw [hEq]
    simp only [spiralCand] at h1 h2
    rw [show (((59 : ℕ) / 6 : ℕ) : ℝ) = 9 by norm_num] at h1 h2
    have hc : Real.cos (((59 : ℕ) : ℝ) * GOLDEN_ANGLE) = 0 := by
      have h1' : Real.cos (((59 : ℕ) : ℝ) * GOLDEN_ANGLE) * 120 = 0 := by
        linarith
      rcases mul_eq_zero.mp h1' with h | h
      · exact h
      · norm_num at h
    have hs : Real.sin (((59 : ℕ) : ℝ) * GOLDEN_ANGLE) = 0 := by
      have h2' : Real.sin (((59 : ℕ) : ℝ) * GOLDEN_ANGLE) * 120 = 0 := by
        linarith
      rcases mul_eq_zero.mp h2' with h | h
      · exact h
      · norm_num at h
    have := Real.sin_sq_add_cos_sq (((59 : ℕ) : ℝ) * GOLDEN_ANGLE)
    rw [hc, hs] at this
    norm_num at this

theorem bigSt_cands_occupied :
    ∀ i < 60, ¬ isPositionFree bigSt.cur.nodes bigSt.cur.edges
      (spiralCand 0 0 12 12 i).1 (spiralCand 0 0 12 12 i).2 none := by
  intro i hi
  show ¬ isPositionFree [bigNode] [] _ _ none
  apply big_blocked
  simp only [spiralCand]
  have hr0 : (0 : ℝ) ≤ 12 + 12 * ((i / 6 : ℕ) : ℝ) := by positivity
  have hh : hypot ((0 : ℝ) - (0 + Real.cos (((i : ℕ) : ℝ) * GOLDEN_ANGLE) *
        (12 + 12 * ((i / 6 : ℕ) : ℝ))))
      ((0 : ℝ) - (0 + Real.sin (((i : ℕ) : ℝ) * GOLDEN_ANGLE) *
        (12 + 12 * ((i / 6 : ℕ) : ℝ)))) =
      |12 + 12 * ((i / 6 : ℕ) : ℝ)| := by
    rw [show (0 : ℝ) - (0 + Real.cos (((i : ℕ) : ℝ) * GOLDEN_ANGLE) *
          (12 + 12 * ((i / 6 : ℕ) : ℝ))) =
        Real.cos (((i : ℕ) : ℝ) * GOLDEN_ANGLE) *
          (-(12 + 12 * ((i / 6 : ℕ) : ℝ))) by ring,
      show (0 : ℝ) - (0 + Real.sin (((i : ℕ) : ℝ) * GOLDEN_ANGLE) *
          (12 + 12 * ((i / 6 : ℕ) : ℝ))) =
        Real.sin (((i : ℕ) : ℝ) * GOLDEN_ANGLE) *
          (-(12 + 12 * ((i / 6 : ℕ) : ℝ))) by ring,
      hypot_cos_sin, abs_neg]
  rw [hh, abs_of_nonneg hr0]
  have hdiv : ((i / 6 : ℕ) : ℝ) ≤ 9 := by
    have : i / 6 ≤ 9 := by omega
    exact_mod_cast this
  linarith

/-- C4 witness: on `bigSt` with requested point `(0, 0)` the occupied
check and full exhaustion hypotheses of the amended theorem hold
concretely, so `addStandalone` places the node at the requested
point and appends exactly one node. -/
theorem addStandalone_spec_witness :
    (addStandalone (some ⟨0, 0⟩) ⟨0, 0⟩ bigSt).1.cur.nodes.length =
      bigSt.cur.nodes.length + 1
    ∧ (addStandalone (some ⟨0, 0⟩) ⟨0, 0⟩ bigSt).1.cur.nodes.getLast? =
      some ⟨nextNodeId bigSt.cur.nodes, "", (0 : ℝ), (0 : ℝ), BASE_W, BASE_H,
        "#333", none, false⟩ := by
  obtain ⟨⟨hlen, -⟩, -, -, hexh, -⟩ :=
    addStandalone_spec bigSt ⟨0, 0⟩ ⟨0, 0⟩
  exact ⟨hlen, hexh bigSt_origin_occupied bigSt_cands_occupied⟩

/-! ## Claim C10: addChild with an unknown parent id -/

/-- C10: `addChild(parentId)` with an id for which no node exists
returns `parentId` and leaves the entire engine state — nodes, edges,
selection and both history stacks — unchanged: the existence check
precedes `pushHistory()`. -/
theorem addChild_unknown_parent (pid eid : ℤ) (st : AppState)
    (h : ∀ n ∈ st.cur.nodes, n.id ≠ pid) :
    addChild pid eid st = (st, pid) := by
  have hf : st.cur.nodes.find? (fun n => n.id == pid) = none := by
    rw [List.find?_eq_none]
    intro n hn
    simpa using h n hn
  simp only [addChild, hf]

/-- C10 witness: adding a child of the nonexistent node 99 on the
concrete two-node state changes nothing and returns 99. -/
theorem addChild_unknown_parent_witness :
    addChild 99 1000 exC2 = (exC2, 99) :=
  addChild_unknown_parent 99 1000 exC2 (by decide)

/-! ## Claim C9: buildRootPath on general graphs

`buildRootPath(startId)` walks `getParentId` in an unbounded
`while (cur != null)` loop, pushing each visited id and reversing at
the end.  The embedding makes the loop's step count explicit:
`rootPathAux edges fuel start` is `some` of the root→…→start path when
the walk reaches a parentless node within `fuel` steps, and `none`
when `fuel` runs out first.  The source loop terminates on an input
iff some finite fuel suffices. -/

def rootPathAux (edges : List Link) : ℕ → ℤ → Option (List ℤ)
  | 0, _ => none
  | fuel + 1, cur =>
      match getParentId edges cur with
      | none => some [cur]
      | some p => (rootPathAux edges fuel p).map (fun l => l ++ [cur])

/-- Two edges forming a parent cycle: `1 → 2` and `2 → 1`, so
`getParentId` of 1 is 2 and of 2 is 1. -/
def cycEdges : List Link :=
  [⟨1, 1, 2, none, false, false⟩, ⟨2, 2, 1, none, false, false⟩]

theorem cyc_parent_one : getParentId cycEdges 1 = some 2 := rfl

theorem cyc_parent_two : getParentId cycEdges 2 = some 1 := rfl

/-- C9 counterexample: on the 2-cycle `1 → 2 → 1` the parent walk of
`buildRootPath(1)` never reaches a parentless node — no finite number
of loop iterations produces a result, i.e. the source's unbounded
`while` loop does not terminate, contradicting the claim that the
walk terminates on every graph including cycles. -/
theorem buildRootPath_cycle_counterexample :
    ¬ ∃ fuel, (rootPathAux cycEdges fuel 1).isSome := by
  rintro ⟨fuel, hs⟩
  have key : ∀ f : ℕ, rootPathAux cycEdges f 1 = none
      ∧ rootPathAux cycEdges f 2 = none := by
    intro f
    induction f with
    | zero => exact ⟨rfl, rfl⟩
    | succ g ih =>
        constructor
        · show rootPathAux cycEdges (g + 1) 1 = none
          rw [rootPathAux, cyc_parent_one]
          show Option.map (fun l => l ++ [1]) (rootPathAux cycEdges g 2) = none
          rw [ih.2]
          rfl
        · show rootPathAux cycEdges (g + 1) 2 = none
          rw [rootPathAux, cyc_parent_two]
          show Option.map (fun l => l ++ [2]) (rootPathAux cycEdges g 1) = none
          rw [ih.1]
          rfl
  rw [(key fuel).1] at hs
  cases hs

/-- C9 (amended): whenever the parent walk of `buildRootPath(start)`
terminates — in particular whenever the ancestor chain of `start` is
acyclic — the returned path is nonempty, its last element is `start`,
and its first element has no parent; on a cyclic parent chain the
walk does not terminate. -/
theorem buildRootPath_spec (edges : List Link) :
    ∀ (fuel : ℕ) (start : ℤ) (l : List ℤ),
      rootPathAux edges fuel start = some l →
      l ≠ [] ∧ l.getLast? = some start
        ∧ ∃ r, l.head? = some r ∧ getParentId edges r = none := by
  intro fuel
  induction fuel with
  | zero => intro start l h; cases h
  | succ f ih =>
      intro start l h
      rw [rootPathAux] at h
      rcases hp : getParentId edges start with - | p
      · rw [hp] at h
        have hl : l = [start] := by
          cases h
          rfl
        subst hl
        exact ⟨by simp, rfl, start, rfl, hp⟩
      · rw [hp] at h
        have h' : Option.map (fun l => l ++ [start]) (rootPathAux edges f p) =
            some l := h
        rcases hrec : rootPathAux edges f p with - | l'
        · rw [hrec] at h'
          cases h'
        · rw [hrec] at h'
          have hl : l = l' ++ [start] := by
            cases h'
            rfl
          subst hl
          obtain ⟨hne, hlast, r, hhead, hroot⟩ := ih p l' hrec
          refine ⟨by simp, List.getLast?_concat _, r, ?_, hroot⟩
          match l', hne, hhead with
          | a :: t, _, hhead => simpa using hhead

/-- C9 witness: with no edges the walk from node 5 terminates in one
step with the path `[5]`, whose last element is 5 and whose head has
no parent. -/
theorem buildRootPath_spec_witness :
    [(5 : ℤ)] ≠ [] ∧ [(5 : ℤ)].getLast? = some 5
      ∧ ∃ r, [(5 : ℤ)].head? = some r ∧ getParentId [] r = none :=
  buildRootPath_spec [] 1 5 [5] rfl

/-! ## NavigationEngine (arrow-key handler, `App.tsx` lines 812-852) -/

/-- A navigation candidate as built by the handler. -/
structure Cand where
  id : ℤ
  dist : ℝ
  angle : ℝ

open Classical in
/-- The candidate collection: every node other than the selected one
whose displacement from the current node has positive dot product
with the unit direction, with its distance and its angle
`acos(clamp(dot/dist, -1, 1))` to the direction axis. -/
noncomputable def navCandidates (ns : List MindNode) (selId : ℤ)
    (cx cy ux uy : ℝ) : List Cand :=
  ns.filterMap (fun n =>
    if n.id = selId then none
    else
      let vx := n.x - cx
      let vy := n.y - cy
      if hypot vx vy = 0 then none
      else if vx * ux + vy * uy ≤ 0 then none
      else some ⟨n.id, hypot vx vy,
        Real.arccos (max (-1) (min 1 ((vx * ux + vy * uy) / hypot vx vy)))⟩)

open Classical in
/-- `pickWithin(maxAngleRad)` from the handler: scan the candidates,
skipping those beyond the cone; the running best is replaced when the
new candidate is closer by more than `1e-3`, or within `1e-3` of the
same distance with a smaller angle. -/
noncomputable def pickWithin (cands : List Cand) (maxA : ℝ) : Option Cand :=
  cands.foldl (fun best c =>
    if maxA < c.angle then best
    else
      match best with
      | none => some c
      | some b =>
          if c.dist < b.dist - 1 / 1000
              ∨ (|c.dist - b.dist| ≤ 1 / 1000 ∧ c.angle < b.angle)
          then some c else some b) none

open Classical in
/-- `candidates.reduce((acc, c) => c.angle < acc.angle ? c : acc)`:
the globally smallest-angle candidate (first on ties). -/
noncomputable def minAngleCand (cands : List Cand) : Option Cand :=
  match cands with
  | [] => none
  | h :: t => some (t.foldl (fun acc c =>
      if c.angle < acc.angle then c else acc) h)

/-- The three-tier pick of the handler: the 30° cone, then the 60°
cone, then the globally smallest-angle candidate; `none` when there
is no forward candidate at all (`if (!candidates.length) return`). -/
noncomputable def navTarget (ns : List MindNode) (selId : ℤ)
    (cx cy ux uy : ℝ) : Option ℤ :=
  let cands := navCandidates ns selId cx cy ux uy
  if cands.isEmpty then none
  else
    match pickWithin cands (30 * (Real.pi / 180)) with
    | some b => some b.id
    | none =>
        match pickWithin cands (60 * (Real.pi / 180)) with
        | some b => some b.id
        | none => (minAngleCand cands).map (fun c => c.id)

theorem pickFold_mem (maxA : ℝ) :
    ∀ (l : List Cand) (acc : Option Cand) (c : Cand),
      l.foldl (fun best c =>
        if maxA < c.angle then best
        else
          match best with
          | none => some c
          | some b =>
              if c.dist < b.dist - 1 / 1000
                  ∨ (|c.dist - b.dist| ≤ 1 / 1000 ∧ c.angle < b.angle)
              then some c else some b) acc = some c →
      (c ∈ l ∧ c.angle ≤ maxA) ∨ acc = some c := by
  intro l
  induction l with
  | nil => intro acc c h; exact Or.inr h
  | cons a t ih =>
      intro acc c h
      rcases ih _ c h with ⟨hmem, hang⟩ | hstep
      · exact Or.inl ⟨List.mem_cons_of_mem _ hmem, hang⟩
      · simp only at hstep
        by_cases hA : maxA < a.angle
        · rw [if_pos hA] at hstep
          exact Or.inr hstep
        · rw [if_neg hA] at hstep
          rcases acc with - | b
          · have hac : a = c := by
              have h' : some a = some c := hstep
              cases h'
              rfl
            exact Or.inl ⟨hac ▸ List.mem_cons_self a t, hac ▸ le_of_not_lt hA⟩
          · have hstep' : (if a.dist < b.dist - 1 / 1000
                ∨ (|a.dist - b.dist| ≤ 1 / 1000 ∧ a.angle < b.angle)
                then some a else some b) = some c := hstep
            by_cases hbeat : a.dist < b.dist - 1 / 1000
                ∨ (|a.dist - b.dist| ≤ 1 / 1000 ∧ a.angle < b.angle)
            · rw [if_pos hbeat] at hstep'
              have hac : a = c := by
                cases hstep'
                rfl
              exact Or.inl ⟨hac ▸ List.mem_cons_self a t,
                hac ▸ le_of_not_lt hA⟩
            · rw [if_neg hbeat] at hstep'
              exact Or.inr hstep'

theorem pickWithin_mem (cands : List Cand) (maxA : ℝ) (c : Cand)
    (h : pickWithin cands maxA = some c) : c ∈ cands ∧ c.angle ≤ maxA := by
  rcases pickFold_mem maxA cands none c h with hgood | hbad
  · exact hgood
  · cases hbad

theorem pickFold_some (maxA : ℝ) :
    ∀ (l : List Cand) (b : Cand),
      (l.foldl (fun best c =>
        if maxA < c.angle then best
        else
          match best with
          | none => some c
          | some b =>
              if c.dist < b.dist - 1 / 1000
                  ∨ (|c.dist - b.dist| ≤ 1 / 1000 ∧ c.angle < b.angle)
              then some c else some b) (some b)).isSome := by
  intro l
  induction l with
  | nil => intro b; rfl
  | cons a t ih =>
      intro b
      show (List.foldl _ (if maxA < a.angle then some b else
        if a.dist < b.dist - 1 / 1000
            ∨ (|a.dist - b.dist| ≤ 1 / 1000 ∧ a.angle < b.angle)
        then some a else some b) t).isSome
      by_cases hA : maxA < a.angle
      · rw [if_pos hA]
        exact ih b
      · rw [if_neg hA]
        by_cases hbeat : a.dist < b.dist - 1 / 1000
            ∨ (|a.dist - b.dist| ≤ 1 / 1000 ∧ a.angle < b.angle)
        · rw [if_pos hbeat]
          exact ih a
        · rw [if_neg hbeat]
          exact ih b

theorem pickWithin_isSome (cands : List Cand) (maxA : ℝ) (c : Cand)
    (hc : c ∈ cands) (hang : c.angle ≤ maxA) :
    (pickWithin cands maxA).isSome := by
  rw [pickWithin]
  induction cands with
  | nil => cases hc
  | cons a t ih =>
      rw [List.foldl_cons]
      rcases List.mem_cons.mp hc with rfl | hct
      · rw [if_neg (not_lt.mpr hang)]
        exact pickFold_some maxA t c
      · by_cases hA : maxA < a.angle
        · rw [if_pos hA]
          exact ih hct
        · rw [if_neg hA]
          exact pickFold_some maxA t a

theorem minAngleFold_spec :
    ∀ (t : List Cand) (h : Cand),
      (t.foldl (fun acc c => if c.angle < acc.angle then c else acc) h)
          ∈ h :: t
      ∧ ∀ c ∈ h :: t,
          (t.foldl (fun acc c => if c.angle < acc.angle then c else acc)
            h).angle ≤ c.angle := by
  intro t
  induction t with
  | nil =>
      intro h
      refine ⟨List.mem_cons_self _ _, ?_⟩
      intro c hc
      rcases List.mem_cons.mp hc with rfl | hc
      · exact le_refl _
      · cases hc
  | cons a t ih =>
      intro h
      rw [List.foldl_cons]
      obtain ⟨ihmem, ihmin⟩ := ih (if a.angle < h.angle then a else h)
      have hstep_le_h : (if a.angle < h.angle then a else h).angle ≤ h.angle := by
        by_cases hah : a.angle < h.angle
        · rw [if_pos hah]; exact le_of_lt hah
        · rw [if_neg hah]
      have hstep_le_a : (if a.angle < h.angle then a else h).angle ≤ a.angle := by
        by_cases hah : a.angle < h.angle
        · rw [if_pos hah]
        · rw [if_neg hah]; exact le_of_not_lt hah
      constructor
      · rcases List.mem_cons.mp ihmem with heq | hmem
        · rw [heq]
          by_cases hah : a.angle < h.angle
          · rw [if_pos hah]
            exact List.mem_cons_of_mem _ (List.mem_cons_self _ _)
          · rw [if_neg hah]
            exact List.mem_cons_self _ _
        · exact List.mem_cons_of_mem _ (List.mem_cons_of_mem _ hmem)
      · intro c hc
        have hmin_step := ihmin _ (List.mem_cons_self _ _)
        rcases List.mem_cons.mp hc with rfl | hc'
        · exact le_trans hmin_step hstep_le_h
        · rcases List.mem_cons.mp hc' with rfl | hc''
          · exact le_trans hmin_step hstep_le_a
          · exact ihmin c (List.mem_cons_of_mem _ hc'')

theorem minAngleCand_spec (cands : List Cand) (hne : cands ≠ []) :
    ∃ m, minAngleCand cands = some m ∧ m ∈ cands
      ∧ ∀ c ∈ cands, m.angle ≤ c.angle := by
  match cands, hne with
  | h :: t, _ =>
      obtain ⟨hmem, hmin⟩ := minAngleFold_spec t h
      exact ⟨_, rfl, hmem, hmin⟩

/-! ## Claim C6: directional navigation -/

/-- C6: directional navigation considers only nodes (other than the
selected one) whose displacement has a positive dot product with the
direction; within a cone `pickWithin` returns a member of the cone
(closest wins when the distance difference exceeds `1e-3`, smaller
angle wins on near-ties, per the pairwise comparator); a candidate
inside the cone guarantees the cone tier succeeds; the final fallback
picks the globally smallest-angle candidate; and whenever any forward
candidate exists some forward candidate is selected — a node behind
the current node is never selected. -/
theorem arrow_navigation_spec (ns : List MindNode) (selId : ℤ)
    (cx cy ux uy : ℝ) :
    (∀ c ∈ navCandidates ns selId cx cy ux uy,
        c.id ≠ selId ∧ ∃ n ∈ ns, n.id = c.id
          ∧ 0 < (n.x - cx) * ux + (n.y - cy) * uy)
    ∧ (∀ r, navTarget ns selId cx cy ux uy = some r →
        ∃ c ∈ navCandidates ns selId cx cy ux uy, c.id = r)
    ∧ (navCandidates ns selId cx cy ux uy ≠ [] →
        (navTarget ns selId cx cy ux uy).isSome)
    ∧ (∀ (cands : List Cand) (maxA : ℝ) (c : Cand),
        pickWithin cands maxA = some c → c ∈ cands ∧ c.angle ≤ maxA)
    ∧ (∀ (cands : List Cand) (maxA : ℝ) (c : Cand),
        c ∈ cands → c.angle ≤ maxA → (pickWithin cands maxA).isSome)
    ∧ (∀ (c d : Cand) (maxA : ℝ), c.angle ≤ maxA → d.angle ≤ maxA →
        pickWithin [c, d] maxA =
          some (if d.dist < c.dist - 1 / 1000
              ∨ (|d.dist - c.dist| ≤ 1 / 1000 ∧ d.angle < c.angle)
            then d else c))
    ∧ (∀ cands : List Cand, cands ≠ [] →
        ∃ m, minAngleCand cands = some m ∧ m ∈ cands
          ∧ ∀ c ∈ cands, m.angle ≤ c.angle) := by
  refine ⟨?_, ?_, ?_, pickWithin_mem, pickWithin_isSome, ?_, minAngleCand_spec⟩
  · intro c hc
    simp only [navCandidates, List.mem_filterMap] at hc
    obtain ⟨n, hn, hf⟩ := hc
    split_ifs at hf with h1 h2 h3
    cases hf
    exact ⟨h1, n, hn, rfl, lt_of_not_le h3⟩
  · intro r hr
    rw [navTarget] at hr
    by_cases hE : (navCandidates ns selId cx cy ux uy).isEmpty
    · rw [if_pos hE] at hr
      cases hr
    · rw [if_neg hE] at hr
      have hne : navCandidates ns selId cx cy ux uy ≠ [] := by
        intro h
        rw [h] at hE
        exact hE rfl
      rcases h30 : pickWithin (navCandidates ns selId cx cy ux uy)
          (30 * (Real.pi / 180)) with - | b
      · rw [h30] at hr
        rcases h60 : pickWithin (navCandidates ns selId cx cy ux uy)
            (60 * (Real.pi / 180)) with - | b
        · rw [h60] at hr
          obtain ⟨m, hm, hmem, -⟩ := minAngleCand_spec _ hne
          rw [hm] at hr
          have : m.id = r := by
            cases hr
            rfl
          exact ⟨m, hmem, this⟩
        · rw [h60] at hr
          have : b.id = r := by
            cases hr
            rfl
          exact ⟨b, (pickWithin_mem _ _ _ h60).1, this⟩
      · rw [h30] at hr
        have : b.id = r := by
          cases hr
          rfl
        exact ⟨b, (pickWithin_mem _ _ _ h30).1, this⟩
  · intro hne
    rw [navTarget]
    have hE : (navCandidates ns selId cx cy ux uy).isEmpty = false := by
      rcases h : navCandidates ns selId cx cy ux uy with - | ⟨a, t⟩
      · exact absurd h hne
      · rfl
    rw [if_neg (by rw [hE]; exact Bool.false_ne_true)]
    rcases h30 : pickWithin (navCandidates ns selId cx cy ux uy)
        (30 * (Real.pi / 180)) with - | b
    · rcases h60 : pickWithin (navCandidates ns selId cx cy ux uy)
          (60 * (Real.pi / 180)) with - | b
      · obtain ⟨m, hm, -, -⟩ := minAngleCand_spec _ hne
        rw [hm]
        rfl
      · rfl
    · rfl
  · intro c d maxA hc hd
    rw [pickWithin]
    rw [List.foldl_cons, if_neg (not_lt.mpr hc), List.foldl_cons]
    show (if maxA < d.angle then some c
      else if d.dist < c.dist - 1 / 1000
          ∨ (|d.dist - c.dist| ≤ 1 / 1000 ∧ d.angle < c.angle)
        then some d else some c) = _
    rw [if_neg (not_lt.mpr hd)]
    by_cases hbeat : d.dist < c.dist - 1 / 1000
        ∨ (|d.dist - c.dist| ≤ 1 / 1000 ∧ d.angle < c.angle)
    · rw [if_pos hbeat, if_pos hbeat]
    · rw [if_neg hbeat, if_neg hbeat]

/-- Two nodes: the selected node 1 at the origin and node 2 straight
above it (ArrowUp direction `(0, -1)`). -/
def navNs : List MindNode := [exNode 1 0 0, exNode 2 0 (-1)]

theorem navNs_cands : navCandidates navNs 1 0 0 0 (-1) = [⟨2, 1, 0⟩] := by
  have h1 : hypot (0 : ℝ) (-1) = 1 := by
    rw [hypot]
    norm_num
  rw [navCandidates, navNs]
  norm_num [exNode, List.filterMap, h1, Real.arccos_one]

theorem navNs_target : navTarget navNs 1 0 0 0 (-1) = some 2 := by
  have h30 : pickWithin [(⟨2, 1, 0⟩ : Cand)] (30 * (Real.pi / 180)) =
      some ⟨2, 1, 0⟩ := by
    rw [pickWithin, List.foldl_cons,
      if_neg (not_lt.mpr (by positivity : (0 : ℝ) ≤ 30 * (Real.pi / 180)))]
    rfl
  rw [navTarget]
  rw [navNs_cands]
  rw [if_neg (by simp)]
  rw [h30]

/-- C6 witness: on the concrete two-node state the forward candidate
above the selected node is found and chosen; the cone lemmas and the
pairwise tie-break are exercised on concrete candidate lists. -/
theorem arrow_navigation_spec_witness :
    (∃ c ∈ navCandidates navNs 1 0 0 0 (-1), c.id = 2)
    ∧ (navTarget navNs 1 0 0 0 (-1)).isSome
    ∧ ((⟨2, 3, 3 / 4⟩ : Cand) ∈ [(⟨1, 5, 1 / 2⟩ : Cand), ⟨2, 3, 3 / 4⟩]
        ∧ (⟨2, 3, 3 / 4⟩ : Cand).angle ≤ 1)
    ∧ (pickWithin [(⟨1, 5, 1 / 2⟩ : Cand), ⟨2, 3, 3 / 4⟩] 1).isSome
    ∧ pickWithin [(⟨1, 5, 1 / 2⟩ : Cand), ⟨2, 3, 3 / 4⟩] 1 =
        some (if (⟨2, 3, 3 / 4⟩ : Cand).dist <
              (⟨1, 5, 1 / 2⟩ : Cand).dist - 1 / 1000
            ∨ (|(⟨2, 3, 3 / 4⟩ : Cand).dist - (⟨1, 5, 1 / 2⟩ : Cand).dist| ≤
                  1 / 1000
               ∧ (⟨2, 3, 3 / 4⟩ : Cand).angle < (⟨1, 5, 1 / 2⟩ : Cand).angle)
          then (⟨2, 3, 3 / 4⟩ : Cand) else ⟨1, 5, 1 / 2⟩)
    ∧ (∃ m, minAngleCand [(⟨1, 5, 1 / 2⟩ : Cand)] = some m
        ∧ m ∈ [(⟨1, 5, 1 / 2⟩ : Cand)]
        ∧ ∀ c ∈ [(⟨1, 5, 1 / 2⟩ : Cand)], m.angle ≤ c.angle) := by
  obtain ⟨-, hb, hc, hd, he, hf, hg⟩ :=
    arrow_navigation_spec navNs 1 0 0 0 (-1)
  have hpick : pickWithin [(⟨1, 5, 1 / 2⟩ : Cand), ⟨2, 3, 3 / 4⟩] 1 =
      some ⟨2, 3, 3 / 4⟩ := by
    rw [pickWithin, List.foldl_cons,
      if_neg (not_lt.mpr (by norm_num : (1 / 2 : ℝ) ≤ 1)), List.foldl_cons]
    show (if (1 : ℝ) < (3 / 4 : ℝ) then _ else
      if (3 : ℝ) < 5 - 1 / 1000
          ∨ (|(3 : ℝ) - 5| ≤ 1 / 1000 ∧ (3 / 4 : ℝ) < 1 / 2)
        then _ else _) = _
    rw [if_neg (by norm_num), if_pos (by norm_num)]
  refine ⟨hb 2 navNs_target, hc (by rw [navNs_cands]; simp), ?_, ?_, ?_, ?_⟩
  · exact hd [⟨1, 5, 1 / 2⟩, ⟨2, 3, 3 / 4⟩] 1 ⟨2, 3, 3 / 4⟩ hpick
  · exact he [⟨1, 5, 1 / 2⟩, ⟨2, 3, 3 / 4⟩] 1 ⟨1, 5, 1 / 2⟩ (by simp)
      (by norm_num)
  · exact hf ⟨1, 5, 1 / 2⟩ ⟨2, 3, 3 / 4⟩ 1 (by norm_num) (by norm_num)
  · exact hg [⟨1, 5, 1 / 2⟩] (by simp)

/-! ## Clipboard, paste and linking operations (for the reachability
invariant of the selection model) -/

/-- The copy handler (Ctrl+C): when nodes are selected, store the
selected nodes and the edges with *both* endpoints selected in the
clipboard; otherwise do nothing.  Not history-wrapped. -/
def copyOp (st : AppState) : AppState :=
  if st.cur.selectedIds = ∅ then st
  else
    let clip : Clip :=
      ⟨st.cur.nodes.filter (fun n => n.id ∈ st.cur.selectedIds),
       st.cur.edges.filter (fun e =>
         e.source ∈ st.cur.selectedIds ∧ e.target ∈ st.cur.selectedIds)⟩
    { st with clipboard := some clip }

/-- `Math.max(...nodes.map(n => n.id))`, or 0 for an empty map (the
paste handler's `maxId`). -/
def maxNodeId (ns : List MindNode) : ℤ :=
  match ns.map (fun n => n.id) with
  | [] => 0
  | h :: t => t.foldl max h

/-- The paste handler (Ctrl+V): no-op without a clipboard; otherwise
push history, remap every copied node to the fresh ids
`maxId + 1, maxId + 2, …` in order, offset positions by 20, remap edge
endpoints through the same id map (edge ids come from
`Date.now() + Math.random()`, passed here as `freshEids`), append
everything and select the pasted nodes. -/
def pasteOp (freshEids : List ℤ) (st : AppState) : AppState :=
  match st.clipboard with
  | none => st
  | some clip =>
      let st1 := pushHistory st
      let maxId := maxNodeId st1.cur.nodes
      let idMap : ℤ → ℤ := fun old =>
        match clip.nodes.findIdx? (fun n => n.id == old) with
        | some k => maxId + (k : ℤ) + 1
        | none => old
      let newNodes := clip.nodes.mapIdx (fun k n =>
        { n with id := maxId + (k : ℤ) + 1, x := n.x + 20, y := n.y + 20 })
      let newEdges := clip.edges.mapIdx (fun k e =>
        { e with
            id := freshEids.getD k 0
            source := idMap e.source
            target := idMap e.target })
      let c1 :=
        { st1.cur with
            nodes := st1.cur.nodes ++ newNodes
            edges := st1.cur.edges ++ newEdges }
      { st1 with cur := selectFromArrayC (newNodes.map (fun n => n.id)) c1 }

/-- The shift-click edge toggle of `onPointerDownNode`: with a single
different node already selected, push history and toggle the edge
between the two (delete if present in either orientation, else create
with fresh id `eid`), then select the clicked node; otherwise the
gesture only selects the clicked node (and arms the transient linking
state, which lives outside the engine state). -/
def shiftClickLink (tgtId eid : ℤ) (st : AppState) : AppState :=
  match st.cur.selectedId with
  | none => { st with cur := selectOnlyC tgtId st.cur }
  | some srcId =>
      if srcId = tgtId then { st with cur := selectOnlyC tgtId st.cur }
      else
        let st1 := pushHistory st
        let c := st1.cur
        let c1 :=
          match c.edges.find? (fun ed =>
            (ed.source == srcId && ed.target == tgtId)
            || (ed.source == tgtId && ed.target == srcId)) with
          | some ed => { c with edges := c.edges.filter (fun e => e.id ≠ ed.id) }
          | none =>
              { c with edges := c.edges ++ [⟨eid, srcId, tgtId, none, false,
                  false⟩] }
        { st1 with cur := selectOnlyC tgtId c1 }

/-- The linking pointer-up of `onPointerUpSvg`: released over node
`tgtId` while linking from `srcId`; if an edge between them already
exists (either orientation) only the target is selected, else history
is pushed and the edge is created (`arrow` set when the gesture was a
drag), then the target is selected. -/
def linkDrop (srcId tgtId eid : ℤ) (isDrag : Bool) (st : AppState) :
    AppState :=
  if st.cur.edges.any (fun ed =>
      (ed.source == srcId && ed.target == tgtId)
      || (ed.source == tgtId && ed.target == srcId)) then
    { st with cur := selectOnlyC tgtId st.cur }
  else
    let st1 := pushHistory st
    let c1 : Cur :=
      { st1.cur with
          edges := st1.cur.edges ++ [⟨eid, srcId, tgtId, none, false, isDrag⟩] }
    { st1 with cur := selectOnlyC tgtId c1 }

/-! ## Claim C3: mutual exclusivity of the selection domains -/

/-- The public operations the selection-exclusivity claim ranges
over. -/
inductive Op where
  | selOnly (id : ℤ)
  | toggle (id : ℤ)
  | selArray (ids : List ℤ)
  | clearSel
  | edgeSel (eid : ℤ) (shift : Bool)
  | remNodes (ids : List ℤ)
  | remEdges (ids : List ℤ)
  | undoOp
  | redoOp
  | importOp (raw : Option RawImport)
  | copy
  | paste (freshEids : List ℤ)
  | shiftClick (tgtId eid : ℤ)
  | drop (srcId tgtId eid : ℤ) (isDrag : Bool)

/-- Dispatch of one public operation. -/
def step : Op → AppState → AppState
  | .selOnly id, st => { st with cur := selectOnlyC id st.cur }
  | .toggle id, st => { st with cur := toggleSelectC id st.cur }
  | .selArray ids, st => { st with cur := selectFromArrayC ids st.cur }
  | .clearSel, st => { st with cur := clearSelectionC st.cur }
  | .edgeSel eid shift, st => { st with cur := edgeSelectC eid shift st.cur }
  | .remNodes ids, st => removeNodes ids st
  | .remEdges ids, st => removeEdges ids st
  | .undoOp, st => undo st
  | .redoOp, st => redo st
  | .importOp raw, st => (importFromRaw raw st).1
  | .copy, st => copyOp st
  | .paste eids, st => pasteOp eids st
  | .shiftClick tgtId eid, st => shiftClickLink tgtId eid st
  | .drop srcId tgtId eid isDrag, st => linkDrop srcId tgtId eid isDrag st

/-- Running a sequence of public operations. -/
def runOps (ops : List Op) (st : AppState) : AppState :=
  ops.foldl (fun s op => step op s) st

/-- The selection invariant on the live state. -/
def SelOk (c : Cur) : Prop :=
  c.selectedIds = ∅ ∨ c.selectedEdgeIds = ∅

/-- The selection invariant on a stored snapshot. -/
def SnapOk (s : Snapshot) : Prop :=
  s.selectedIds = [] ∨ s.selectedEdgeIds = []

/-- The invariant over the whole engine state: the live selection and
every snapshot on either history stack are exclusive. -/
def StateOk (st : AppState) : Prop :=
  SelOk st.cur ∧ (∀ s ∈ st.undos, SnapOk s) ∧ (∀ s ∈ st.redos, SnapOk s)

/-- Import of a full snapshot installs the file's stored selection
verbatim, so the invariant is only preserved when the imported
selection itself is exclusive; every other operation needs no side
condition. -/
def OpOk : Op → Prop
  | .importOp (some r) =>
      (r.pan.isSome ∧ r.scale.isSome) →
        (r.selectedIds.getD [] = [] ∨ r.selectedEdgeIds.getD [] = [])
  | _ => True

/-- The app's initial state: the single "Start" node, selected (the
initial pan is the window centre; its value is irrelevant to the
selection model and set to the origin here). -/
def initState : AppState :=
  ⟨⟨[⟨1, "Start", 0, 0, 120, 64, "#333", none, false⟩], [], ⟨0, 0⟩, 1,
    some 1, {1}, ∅⟩, [], [], none⟩

theorem SnapOk_snapshotOf (c : Cur) (h : SelOk c) : SnapOk (snapshotOf c) := by
  rcases h with h | h
  · left
    show setToArray c.selectedIds = []
    rw [h, setToArray]
    exact Finset.sort_empty _
  · right
    show setToArray c.selectedEdgeIds = []
    rw [h, setToArray]
    exact Finset.sort_empty _

theorem SelOk_restoreCur (s : Snapshot) (h : SnapOk s) :
    SelOk (restoreCur s) := by
  rcases h with h | h
  · left
    show s.selectedIds.toFinset = ∅
    rw [h]
    rfl
  · right
    show s.selectedEdgeIds.toFinset = ∅
    rw [h]
    rfl

theorem StateOk_set_cur (st : AppState) (h : StateOk st) (c' : Cur)
    (hc : SelOk c') : StateOk { st with cur := c' } :=
  ⟨hc, h.2.1, h.2.2⟩

theorem StateOk_push_set (st : AppState) (h : StateOk st) (c' : Cur)
    (hc : SelOk c') : StateOk { pushHistory st with cur := c' } := by
  refine ⟨hc, ?_, ?_⟩
  · intro s hs
    have hs' : s ∈ snapshotOf st.cur :: st.undos := hs
    rcases List.mem_cons.mp hs' with rfl | hmem
    · exact SnapOk_snapshotOf _ h.1
    · exact h.2.1 s hmem
  · intro s hs
    cases hs

theorem SelOk_removeNodesCore (ids : List ℤ) (c : Cur) :
    SelOk (removeNodesCore ids c) := by
  rcases hn : nextSelectionFor ids c.edges with - | p <;>
    · right
      simp [removeNodesCore, hn, clearSelectionC]

/-- Each public operation preserves the selection-exclusivity
invariant, given the import side condition. -/
theorem step_preserves (op : Op) (st : AppState) (h : StateOk st)
    (hop : OpOk op) : StateOk (step op st) := by
  cases op with
  | selOnly id => exact StateOk_set_cur st h _ (Or.inr rfl)
  | toggle id => exact StateOk_set_cur st h _ (Or.inr rfl)
  | selArray ids => exact StateOk_set_cur st h _ (Or.inr rfl)
  | clearSel => exact StateOk_set_cur st h _ (Or.inr rfl)
  | edgeSel eid shift => exact StateOk_set_cur st h _ (Or.inl rfl)
  | remNodes ids =>
      show StateOk (removeNodes ids st)
      rw [removeNodes]
      by_cases he : ids.isEmpty
      · rw [if_pos he]
        exact h
      · rw [if_neg he]
        exact StateOk_push_set st h _ (SelOk_removeNodesCore ids _)
  | remEdges ids =>
      show StateOk (removeEdges ids st)
      rw [removeEdges]
      by_cases he : ids.isEmpty
      · rw [if_pos he]
        exact h
      · rw [if_neg he]
        exact StateOk_push_set st h _ (Or.inr rfl)
  | undoOp =>
      show StateOk (undo st)
      rcases st with ⟨c, u, r, cl⟩
      obtain ⟨hsel, hundos, hredos⟩ := h
      rcases u with - | ⟨s, rest⟩
      · exact ⟨hsel, hundos, hredos⟩
      · refine ⟨SelOk_restoreCur s (hundos s (List.mem_cons_self _ _)),
          ?_, ?_⟩
        · intro t ht
          exact hundos t (List.mem_cons_of_mem _ ht)
        · intro t ht
          have ht' : t ∈ snapshotOf c :: r := ht
          rcases List.mem_cons.mp ht' with rfl | hmem
          · exact SnapOk_snapshotOf c hsel
          · exact hredos t hmem
  | redoOp =>
      show StateOk (redo st)
      rcases st with ⟨c, u, r, cl⟩
      obtain ⟨hsel, hundos, hredos⟩ := h
      rcases r with - | ⟨s, rest⟩
      · exact ⟨hsel, hundos, hredos⟩
      · refine ⟨SelOk_restoreCur s (hredos s (List.mem_cons_self _ _)),
          ?_, ?_⟩
        · intro t ht
          have ht' : t ∈ snapshotOf c :: u := ht
          rcases List.mem_cons.mp ht' with rfl | hmem
          · exact SnapOk_snapshotOf c hsel
          · exact hundos t hmem
        · intro t ht
          exact hredos t (List.mem_cons_of_mem _ ht)
  | importOp raw =>
      show StateOk (importFromRaw raw st).1
      rcases raw with - | r
      · exact h
      · rcases hn : r.nodes with - | ns <;> rcases he : r.edges with - | es <;>
          simp only [importFromRaw, hn, he]
        · exact h
        · exact h
        · exact h
        · rcases hp : r.pan with - | pv <;> rcases hsc : r.scale with - | sv <;>
            simp only [hp, hsc]
          · exact StateOk_set_cur st h _ (Or.inr rfl)
          · exact StateOk_set_cur st h _ (Or.inr rfl)
          · exact StateOk_set_cur st h _ (Or.inr rfl)
          · refine StateOk_set_cur st h _ (SelOk_restoreCur _ ?_)
            have hcond : r.pan.isSome ∧ r.scale.isSome := by
              rw [hp, hsc]
              exact ⟨rfl, rfl⟩
            rcases hop hcond with hl | hr
            · exact Or.inl hl
            · exact Or.inr hr
  | copy =>
      show StateOk (copyOp st)
      rw [copyOp]
      by_cases hc : st.cur.selectedIds = ∅
      · rw [if_pos hc]
        exact h
      · rw [if_neg hc]
        exact ⟨h.1, h.2.1, h.2.2⟩
  | paste eids =>
      show StateOk (pasteOp eids st)
      rcases st with ⟨c, u, r, cl⟩
      rcases cl with - | clip
      · exact h
      · exact StateOk_push_set ⟨c, u, r, some clip⟩ h _ (Or.inr rfl)
  | shiftClick tgt eid =>
      show StateOk (shiftClickLink tgt eid st)
      rcases hsel : st.cur.selectedId with - | src <;>
        simp only [shiftClickLink, hsel]
      · exact StateOk_set_cur st h _ (Or.inr rfl)
      · by_cases hst : src = tgt
        · rw [if_pos hst]
          exact StateOk_set_cur st h _ (Or.inr rfl)
        · rw [if_neg hst]
          exact StateOk_push_set st h _ (Or.inr rfl)
  | drop src tgt eid isDrag =>
      show StateOk (linkDrop src tgt eid isDrag st)
      rw [linkDrop]
      by_cases hex : st.cur.edges.any (fun ed =>
        (ed.source == src && ed.target == tgt)
        || (ed.source == tgt && ed.target == src))
      · rw [if_pos hex]
        exact StateOk_set_cur st h _ (Or.inr rfl)
      · rw [if_neg hex]
        exact StateOk_push_set st h _ (Or.inr rfl)

/-- C3 (amended): starting from any state satisfying the selection
invariant (in particular the initial state), every sequence of the
public operations — selection, edge selection, removal, undo/redo,
file import, copy/paste, linking — keeps `selectedIds` and
`selectedEdgeIds` from ever being both non-empty, *provided* every
imported full snapshot itself stores an exclusive selection: a
full import restores the file's selection verbatim, so that side condition
is exactly what the import path needs (and all other operations need
none). -/
theorem selection_domains_exclusive (ops : List Op) (st : AppState)
    (hst : StateOk st) (hops : ∀ op ∈ ops, OpOk op) :
    StateOk (runOps ops st)
    ∧ ¬ ((runOps ops st).cur.selectedIds ≠ ∅
         ∧ (runOps ops st).cur.selectedEdgeIds ≠ ∅) := by
  have main : StateOk (runOps ops st) := by
    induction ops generalizing st with
    | nil => exact hst
    | cons op rest ih =>
        show StateOk (runOps rest (step op st))
        exact ih (step op st)
          (step_preserves op st hst (hops op (List.mem_cons_self _ _)))
          (fun o ho => hops o (List.mem_cons_of_mem _ ho))
  refine ⟨main, ?_⟩
  rintro ⟨h1, h2⟩
  rcases main.1 with hsel | hsel
  · exact h1 hsel
  · exact h2 hsel

/-- A full-snapshot import document whose stored selection has both a
node and an edge selected. -/
def badImport : RawImport :=
  ⟨some [], some [], some ⟨0, 0⟩, some 1, none, some [1], some [2]⟩

/-- C3 counterexample: one public operation from the initial state
— importing a full snapshot whose file stores both a non-empty
node selection and a non-empty edge selection — produces a state in
which `selectedIds` and `selectedEdgeIds` are both non-empty,
because the import path restores the file's selection verbatim,
enforcing no exclusivity. -/
theorem selection_exclusivity_counterexample :
    (runOps [Op.importOp (some badImport)] initState).cur.selectedIds ≠ ∅
    ∧ (runOps [Op.importOp (some badImport)] initState).cur.selectedEdgeIds
        ≠ ∅ := by
  constructor
  · show ({(1 : ℤ)} : Finset ℤ) ≠ ∅
    decide
  · show ({(2 : ℤ)} : Finset ℤ) ≠ ∅
    decide

/-- C3 witness: a concrete run — select node 2, then select edge 7,
then undo — from the initial state never has both selection domains
non-empty. -/
theorem selection_domains_exclusive_witness :
    ¬ ((runOps [Op.selOnly 2, Op.edgeSel 7 false, Op.undoOp]
          initState).cur.selectedIds ≠ ∅
       ∧ (runOps [Op.selOnly 2, Op.edgeSel 7 false, Op.undoOp]
          initState).cur.selectedEdgeIds ≠ ∅) :=
  (selection_domains_exclusive [Op.selOnly 2, Op.edgeSel 7 false, Op.undoOp]
    initState
    ⟨Or.inr rfl, fun s hs => absurd hs (List.not_mem_nil s),
     fun s hs => absurd hs (List.not_mem_nil s)⟩
    (by
      intro op hop
      simp only [List.mem_cons, List.mem_singleton] at hop
      rcases hop with rfl | rfl | rfl | h
      · trivial
      · trivial
      · trivial
      · cases h)).2

end Mindmap
